import Mathlib

/-!
Verification development for the model-driven request/response codec of the
yieldfrom botocore library: the shape model and resolver, the protocol
serializer/parser engine, and the paginator engine.

The repository ships only the unit tests and peripheral transport files for
this core; the shape resolver (model.py), the serializers (serialize.py), the
response parsing (parsers.py) and the paginator (paginate.py) are not part of
the source tree.  Definitions below that embed those missing modules are
modelled from the specification document, with the repository's unit tests
pinning the concrete behaviours; each such definition carries a doc comment
saying so.
-/

namespace YFB

/-- Values: the JSON-like data that parameter trees, schema trait bags and
parsed responses are made of.  Dictionaries are association lists in key
order (mirroring the ordered mappings the library uses). -/
inductive Val where
  | vStr : String → Val
  | vInt : Int → Val
  | vBool : Bool → Val
  | vList : List Val → Val
  | vDict : List (String × Val) → Val
  | vNull : Val

/-- Decidable equality for values (the derive handler does not cope with the
nested occurrences of List, so the instance is spelled out). -/
def Val.beq : Val → Val → Bool
  | .vStr a, .vStr b => a == b
  | .vInt a, .vInt b => a == b
  | .vBool a, .vBool b => a == b
  | .vNull, .vNull => true
  | .vList a, .vList b => listBeq a b
  | .vDict a, .vDict b => dictBeq a b
  | _, _ => false
where
  listBeq : List Val → List Val → Bool
    | [], [] => true
    | x :: xs, y :: ys => Val.beq x y && listBeq xs ys
    | _, _ => false
  dictBeq : List (String × Val) → List (String × Val) → Bool
    | [], [] => true
    | (k, x) :: xs, (l, y) :: ys => k == l && Val.beq x y && dictBeq xs ys
    | _, _ => false

/-- Association-list lookup: first binding of the key, as a Python dict read. -/
def alookup (l : List (String × α)) (k : String) : Option α :=
  match l with
  | [] => none
  | (k', v) :: rest => if k' = k then some v else alookup rest k

/-- Association-list write, as a Python dict write: replace the first binding
of the key in place, or append a new binding. -/
def aset (l : List (String × α)) (k : String) (v : α) : List (String × α) :=
  match l with
  | [] => [(k, v)]
  | (k', v') :: rest => if k' = k then (k, v) :: rest else (k', v') :: aset rest k v

/-- Association-list delete, as a Python dict del: drop every binding of the
key. -/
def adel (l : List (String × α)) (k : String) : List (String × α) :=
  match l with
  | [] => []
  | (k', v') :: rest => if k' = k then adel rest k else (k', v') :: adel rest k

/-- Keys of an association list. -/
def akeys (l : List (String × α)) : List String := l.map Prod.fst

/-- Dict update, as Python's dict.update: fold the overriding entries into the
base dict, each write replacing any earlier binding of its key.  The base and
the update are consumed functionally, so neither source is mutated. -/
def dictUpdate (base upd : List (String × α)) : List (String × α) :=
  upd.foldl (fun acc p => aset acc p.1 p.2) base

/-! ### Shape model and resolver

Modelled from the spec: the shape resolver module (model.py) is not in the
source tree; only its unit tests are.  The definitions follow section 3 and
section 4.1 of the specification: a denormalized shape table maps shape names
to definitions; a reference site names a shape and may attach traits that
override the definition-level traits in the merged serialization bag. -/

/-- Errors of the shape model, mirroring the error taxonomy of section 7. -/
inductive ModelError where
  | noShapeFound (name : String)
  | invalidShape (msg : String)
  | invalidShapeReference (msg : String)
  | operationNotFound (name : String)
  | undefinedModelAttribute (name : String)
deriving DecidableEq

/-- Modelled from the spec: a reference site (member, list member, map
key/value, operation input/output).  A valid reference carries a shape key
naming a shape of the table; a denormalized inline definition instead carries
a type key and no shape key. -/
structure ShapeRef where
  shape : Option String
  typeTag : Option String
  traits : List (String × Val)

/-- Modelled from the spec: a shape definition of the denormalized schema
document.  The type discriminator and the structural keys (members, list
member, map key/value) are split out; every remaining key of the definition
dict is a definition-level trait. -/
structure ShapeDef where
  typeTag : Option String
  members : List (String × ShapeRef)
  listMember : Option ShapeRef
  mapKey : Option ShapeRef
  mapValue : Option ShapeRef
  traits : List (String × Val)

/-- A shape table: the shapes mapping of a schema document. -/
def ShapeTable := List (String × ShapeDef)

/-- Lookup of a shape definition by name. -/
def ShapeTable.find (t : ShapeTable) (name : String) : Option ShapeDef :=
  alookup t name

/-- The recognized type discriminators of section 3. -/
def recognizedTypes : List String :=
  ["structure", "list", "map", "string", "integer", "long", "float",
   "double", "boolean", "blob", "timestamp"]

/-- The trait keys that are copied into the serialization bag, with
locationName renamed to name. -/
def serializedAttrs : List String :=
  ["locationName", "queryName", "flattened", "location", "payload",
   "streaming", "timestampFormat", "xmlNamespace", "resultWrapper",
   "xmlAttribute"]

/-- The trait keys that are copied into the metadata bag. -/
def metadataAttrs : List String :=
  ["required", "min", "max", "sensitive", "enum"]

/-- The serialization bag of a merged trait dict: the serialized attributes
present in the dict, with locationName stored under the key name. -/
def serializationBag (traits : List (String × Val)) : List (String × Val) :=
  serializedAttrs.filterMap fun attr =>
    (alookup traits attr).map fun v =>
      (if attr = "locationName" then "name" else attr, v)

/-- The metadata bag of a merged trait dict. -/
def metadataBag (traits : List (String × Val)) : List (String × Val) :=
  metadataAttrs.filterMap fun attr => (alookup traits attr).map ((attr, ·))

/-- A resolved shape node: name, type, merged serialization and metadata bags,
and the backing definition (members and such are resolved lazily from it, as
the resolver does). -/
structure Shape where
  name : String
  typeName : String
  mergedTraits : List (String × Val)
  defn : ShapeDef

/-- The serialization bag of a resolved shape. -/
def Shape.serialization (s : Shape) : List (String × Val) :=
  serializationBag s.mergedTraits

/-- The metadata bag of a resolved shape. -/
def Shape.metadata (s : Shape) : List (String × Val) :=
  metadataBag s.mergedTraits

/-- Modelled from the spec: shape lookup with reference-site traits.  Fails
with noShapeFound for an undeclared name and with invalidShape when the
definition lacks a recognized type discriminator; otherwise the definition
traits are merged with the reference-site traits, reference site winning. -/
def getShapeWithTraits (t : ShapeTable) (name : String)
    (refTraits : List (String × Val)) : Except ModelError Shape :=
  match t.find name with
  | none => .error (.noShapeFound name)
  | some defn =>
    match defn.typeTag with
    | none => .error (.invalidShape ("Shape is missing required key type: " ++ name))
    | some ty =>
      if recognizedTypes.contains ty then
        .ok ⟨name, ty, dictUpdate defn.traits refTraits, defn⟩
      else
        .error (.invalidShape ("Unrecognized type " ++ ty ++ " for shape " ++ name))

/-- Shape lookup without reference-site traits. -/
def getShapeByName (t : ShapeTable) (name : String) : Except ModelError Shape :=
  getShapeWithTraits t name []

/-- Modelled from the spec: resolving a shape reference.  A definition that is
not a reference to a named shape (no shape key; for instance an inline type
key, the marker of a denormalized model) fails with
invalidShapeReference. -/
def resolveShapeRef (t : ShapeTable) (ref : ShapeRef) : Except ModelError Shape :=
  match ref.shape with
  | some n => getShapeWithTraits t n ref.traits
  | none => .error (.invalidShapeReference
      "Invalid model, missing shape reference (inline definition?)")

/-- Resolve a member list in order, stopping at the first failure. -/
def mapMembers (t : ShapeTable) : List (String × ShapeRef) →
    Except ModelError (List (String × Shape))
  | [] => .ok []
  | p :: rest =>
    match resolveShapeRef t p.2 with
    | .error e => .error e
    | .ok sh =>
      match mapMembers t rest with
      | .error e => .error e
      | .ok ms => .ok ((p.1, sh) :: ms)

/-- Modelled from the spec: resolving the members of a structure shape, every
member reference resolved against the table with its reference-site traits. -/
def structMembers (t : ShapeTable) (s : Shape) :
    Except ModelError (List (String × Shape)) :=
  mapMembers t s.defn.members

/-! ### Service and operation model -/

/-- Modelled from the spec: an operation definition of the schema document. -/
structure OperationDef where
  nameOverride : Option String
  httpMethod : Option String
  httpRequestUri : Option String
  inputRef : Option ShapeRef
  outputRef : Option ShapeRef

/-- Modelled from the spec: a service description: metadata dict, shape table
and operation table. -/
structure ServiceDef where
  metadata : List (String × Val)
  shapes : ShapeTable
  operations : List (String × OperationDef)

/-- Modelled from the spec: the resolved output shape of an operation.  An
operation that declares no output resolves to none, which is a valid result,
not an error. -/
def outputShape (svc : ServiceDef) (op : OperationDef) :
    Except ModelError (Option Shape) :=
  match op.outputRef with
  | none => .ok none
  | some ref => (resolveShapeRef svc.shapes ref).map some

/-- Modelled from the spec: whether the operation streams its output: true
exactly when the output structure declares a payload member whose shape type
is blob. -/
def hasStreamingOutput (svc : ServiceDef) (op : OperationDef) : Bool :=
  match outputShape svc op with
  | .ok (some sh) =>
    match alookup sh.serialization "payload" with
    | some (.vStr p) =>
      match structMembers svc.shapes sh with
      | .ok ms =>
        match alookup ms p with
        | some payloadShape => payloadShape.typeName = "blob"
        | none => false
      | .error _ => false
    | _ => false
  | _ => false

/-! ### Paginator engine

Modelled from the spec: the paginator module (paginate.py) is not in the
source tree; only its unit tests are.  The definitions follow section 4.4 of
the specification: the state machine over extracted output tokens, the
page-size injection, the max-items/resume-token protocol with its triple
underscore token encoding, and the build-full-result aggregation. -/

/-- Keyword arguments of one operation invocation. -/
abbrev Args := List (String × Val)

/-- Pagination failures of section 7: a repeated continuation token, or a
malformed resume token. -/
inductive PagError where
  | sameNextToken
  | badStartingToken (tok : String)
deriving DecidableEq

/-- Dotted-path search into a parsed response tree. -/
def searchPath : List String → Val → Option Val
  | [], v => some v
  | k :: rest, .vDict d =>
    match alookup d k with
    | some v => searchPath rest v
    | none => none
  | _ :: _, _ => none

/-- Whether a token slot value counts as absent or empty (Python falsiness:
missing, null, empty string, empty collection, zero, false). -/
def tokenEmpty : Option Val → Bool
  | none => true
  | some .vNull => true
  | some (.vStr s) => s == ""
  | some (.vList l) => l.isEmpty
  | some (.vDict d) => d.isEmpty
  | some (.vBool b) => !b
  | some (.vInt n) => n == 0

/-- An OR path expression: the first alternative that matches a present,
non-empty field wins; an expression whose alternatives all come up empty
yields none. -/
def searchAlts (alts : List (List String)) (page : Val) : Option Val :=
  match alts with
  | [] => none
  | p :: rest =>
    let r := searchPath p page
    if tokenEmpty r then searchAlts rest page else r

/-- A pagination contract: input token field names, output token OR path
expressions (order-correlated with the input tokens), result key paths, the
optional page-size field, the optional more-results path, and the
non-aggregate key paths. -/
structure PageConfig where
  inputToken : List String
  outputToken : List (List (List String))
  resultKeys : List (List String)
  limitKey : Option String
  moreResults : Option (List String)
  nonAggregateKeys : List (List String)

/-- Modelled from the spec: token extraction from one parsed page.  When a
more-results path is declared and evaluates false, every slot is reported
absent; otherwise each output-token expression is evaluated in declaration
order. -/
def extractTokens (cfg : PageConfig) (page : Val) : List (Option Val) :=
  match cfg.moreResults with
  | some mp =>
    if tokenEmpty (searchPath mp page) then cfg.outputToken.map (fun _ => none)
    else cfg.outputToken.map (searchAlts · page)
  | none => cfg.outputToken.map (searchAlts · page)

/-- Decimal digit to character. -/
def digitChar (d : Nat) : Char := Char.ofNat (48 + d)

/-- Character to decimal digit value. -/
def charDigit (c : Char) : Nat := c.toNat - 48

/-- Decimal rendering with a fuel bound (the fuel exceeds the number, so the
division chain always terminates inside it). -/
def natWireGo : Nat → Nat → List Char
  | 0, _ => []
  | fuel + 1, n =>
    if n < 10 then [digitChar n]
    else natWireGo fuel (n / 10) ++ [digitChar (n % 10)]

/-- Decimal rendering of a natural number (most significant digit first). -/
def natWire (n : Nat) : List Char := natWireGo (n + 1) n

/-- Decimal rendering of a natural number as a string. -/
def natWireStr (n : Nat) : String := String.mk (natWire n)

/-- Strict decimal parse of a digit string (the int conversion applied to a
resume-token offset segment). -/
def parseNatChars (cs : List Char) : Option Nat :=
  if cs ≠ [] ∧ cs.all Char.isDigit then
    some (Nat.ofDigits 10 (cs.reverse.map charDigit))
  else none

/-- Signed decimal parse of a string. -/
def parseIntStr (s : String) : Option Int :=
  match s.data with
  | '-' :: rest => (parseNatChars rest).map (fun n => -(n : Int))
  | cs => (parseNatChars cs).map (fun n => (n : Int))

/-- String rendering of a token value (Python str), with None for an absent
slot. -/
def valToStr : Val → String
  | .vStr s => s
  | .vInt n => if n < 0 then "-" ++ natWireStr n.natAbs else natWireStr n.natAbs
  | .vBool b => if b then "True" else "False"
  | .vNull => "None"
  | .vList _ => ""
  | .vDict _ => ""

/-- Modelled from the spec: the resume-token encoding: the token values joined
with a literal triple underscore in declared input-token order, the literal
string None standing for an absent value, and an optional trailing numeric
in-page offset. -/
def encodeToken (toks : List (Option Val)) (off : Option Nat) : String :=
  let parts := toks.map fun t => match t with | some v => valToStr v | none => "None"
  let parts := match off with | some n => parts ++ [natWireStr n] | none => parts
  String.intercalate "___" parts

/-- Split on the literal triple underscore separator (the str.split of the
resume-token decoding). -/
def splitTokAux : List Char → List Char → List String
  | [], acc => [String.mk acc.reverse]
  | [c], acc => [String.mk (acc.reverse ++ [c])]
  | [c1, c2], acc => [String.mk (acc.reverse ++ [c1, c2])]
  | c1 :: c2 :: c3 :: rest, acc =>
    if c1 = '_' ∧ c2 = '_' ∧ c3 = '_' then
      String.mk acc.reverse :: splitTokAux rest []
    else
      splitTokAux (c2 :: c3 :: rest) (c1 :: acc)

/-- Split a resume token string on the triple underscore separator. -/
def splitTok (s : String) : List String := splitTokAux s.data []

/-- The literal segment None decodes to an absent token value. -/
def decodeTokenPart (s : String) : Option String :=
  if s = "None" then none else some s

/-- Modelled from the spec: decoding a supplied starting token.  When the
segment count is the input-token arity plus one, the trailing segment is the
numeric in-page offset and a non-integer there is rejected as a bad starting
token; otherwise the segments are the token values and the offset is zero. -/
def parseStartingToken (arity : Nat) (tok : String) :
    Except PagError (List (Option String) × Nat) :=
  let parts := splitTok tok
  if parts.length = arity + 1 then
    match parseIntStr (parts.getLastD "") with
    | none => .error (.badStartingToken tok)
    | some n => .ok (parts.dropLast.map decodeTokenPart, n.toNat)
  else
    .ok (parts.map decodeTokenPart, 0)

/-- Write one token slot into the kwargs: a present value is stored under the
input-token name, an absent one clears the field. -/
def injectOne (kw : Args) (name : String) : Option Val → Args
  | some v => aset kw name v
  | none => adel kw name

/-- Modelled from the spec: use the extracted values as the next call's
input-token fields, pairing slots with the declared input-token names. -/
def injectTokens (names : List String) (kw : Args) (toks : List (Option Val)) : Args :=
  (names.zip toks).foldl (fun acc p => injectOne acc p.1 p.2) kw

/-- Modelled from the spec: page-size injection under the declared limit key,
when both are present. -/
def injectPageSize (limitKey : Option String) (pageSize : Option Val) (kw : Args) : Args :=
  match limitKey, pageSize with
  | some k, some v => aset kw k v
  | _, _ => kw

/-- The list behind a result-key lookup (an absent or non-list value is an
empty collection). -/
def getListV : Option Val → List Val
  | some (.vList l) => l
  | _ => []

/-- Write a value at a dotted path of a response tree, creating the
intermediate dicts. -/
def setPath : List String → Val → Val → Val
  | [], newV, _ => newV
  | k :: rest, newV, .vDict d =>
    .vDict (aset d k (setPath rest newV ((alookup d k).getD (.vDict []))))
  | k :: rest, newV, _ => .vDict [(k, setPath rest newV (.vDict []))]

/-- Modelled from the spec: the first page of a resumed pagination: skip the
items already delivered from the primary result key and clear the secondary
result keys, which were fully delivered before the cut. -/
def handleFirstRequest (cfg : PageConfig) (off : Nat) (page : Val) : Val :=
  let primary := cfg.resultKeys.headD []
  let data := getListV (searchPath primary page)
  let page := setPath primary (.vList (data.drop off)) page
  (cfg.resultKeys.drop 1).foldl (fun p rk => setPath rk (.vList []) p) page

/-- Structural equality of optional token values. -/
def optValBeq : Option Val → Option Val → Bool
  | none, none => true
  | some a, some b => Val.beq a b
  | _, _ => false

/-- Structural equality of token slot lists. -/
def tokListBeq : List (Option Val) → List (Option Val) → Bool
  | [], [] => true
  | a :: as, b :: bs => optValBeq a b && tokListBeq as bs
  | _, _ => false

/-- Whether the previously injected token list equals the newly extracted
one. -/
def prevBeq : Option (List (Option Val)) → List (Option Val) → Bool
  | none, _ => false
  | some p, t => tokListBeq p t

/-- The outcome of a pagination run: the kwargs of every call issued, the
pages yielded (the final page possibly truncated), the resume token when a
max-items cut occurred, and the pagination error when the run aborted. -/
structure RunOut where
  calls : List Args
  pages : List Val
  resumeToken : Option String
  err : Option PagError

/-- Prepend the call and page of one loop iteration to a run outcome. -/
def consCall (kw : Args) (page : Val) (out : RunOut) : RunOut :=
  ⟨kw :: out.calls, page :: out.pages, out.resumeToken, out.err⟩

/-- Modelled from the spec: the pagination loop over the pages the operation
returns.  One call is issued per page consumed; after each page the output
tokens are extracted; pagination stops when a max-items cut truncates the
page (recording a resume token with in-page offset), when every token slot is
absent or empty, or when the max-items budget lands exactly on a page
boundary (recording an offset-free resume token); a repeated token list
aborts with a pagination error before any further call. -/
def runLoop (cfg : PageConfig) (maxItems : Option Nat) (kw : Args)
    (curTok : List (Option Val)) (prev : Option (List (Option Val)))
    (total : Nat) (firstOffset : Option Nat) : List Val → RunOut
  | [] => ⟨[], [], none, none⟩
  | r :: rest =>
    let page := match firstOffset with
      | some k => handleFirstRequest cfg k r
      | none => r
    let primary := cfg.resultKeys.headD []
    let cur := getListV (searchPath primary page)
    let num := cur.length
    let doTrunc := match maxItems with
      | some m => decide (m < total + num)
      | none => false
    if doTrunc then
      let m := maxItems.getD 0
      let keep := m - total
      let page := setPath primary (.vList (cur.take keep)) page
      let off := keep + firstOffset.getD 0
      ⟨[kw], [page], some (encodeToken curTok (some off)), none⟩
    else
      let toks := extractTokens cfg page
      if toks.all Option.isNone then ⟨[kw], [page], none, none⟩
      else if maxItems = some (total + num) then
        ⟨[kw], [page], some (encodeToken toks none), none⟩
      else if prevBeq prev toks then
        ⟨[kw], [page], none, some .sameNextToken⟩
      else
        consCall kw page
          (runLoop cfg maxItems (injectTokens cfg.inputToken kw toks) toks
            (some toks) (total + num) none rest)

/-- The caller-visible pagination options: max items, starting token, page
size. -/
structure PaginationSettings where
  maxItems : Option Nat
  startingToken : Option String
  pageSize : Option Val

/-- Modelled from the spec: a full pagination run.  A supplied starting token
is decoded (a malformed one failing before any call), its values injected
into the first call's kwargs and its offset applied to the first page; the
optional page size is injected under the limit key on every call. -/
def paginate (cfg : PageConfig) (ps : PaginationSettings) (kwargs : Args)
    (rs : List Val) : RunOut :=
  match ps.startingToken with
  | none =>
    let curTok : List (Option Val) := cfg.inputToken.map (fun _ => none)
    let kw0 := injectPageSize cfg.limitKey ps.pageSize kwargs
    runLoop cfg ps.maxItems kw0 curTok none 0 none rs
  | some s =>
    match parseStartingToken cfg.inputToken.length s with
    | .error e => ⟨[], [], none, some e⟩
    | .ok (vals, off) =>
      let curTok := vals.map (fun o => o.map Val.vStr)
      let kw0 := injectPageSize cfg.limitKey ps.pageSize
        (injectTokens cfg.inputToken kwargs curTok)
      runLoop cfg ps.maxItems kw0 curTok none 0 (some off) rs

/-- Modelled from the spec: injection of the starting parameters (decoded
starting-token values and page size) into a caller's argument dict. -/
def injectStartingParams (cfg : PageConfig) (ps : PaginationSettings)
    (kw : Args) : Except PagError Args :=
  match ps.startingToken with
  | none => .ok (injectPageSize cfg.limitKey ps.pageSize kw)
  | some s =>
    match parseStartingToken cfg.inputToken.length s with
    | .error e => .error e
    | .ok (vals, _) =>
      .ok (injectPageSize cfg.limitKey ps.pageSize
        (injectTokens cfg.inputToken kw (vals.map (fun o => o.map Val.vStr))))

/-- Items of a collection value (a non-list contributes nothing). -/
def getListItems : Val → List Val
  | .vList l => l
  | _ => []

/-- Concatenation, in page order, of the collections a result-key path selects
across the pages of a run; none when the path matched no page at all. -/
def aggregatePieces (pages : List Val) (path : List String) : Option (List Val) :=
  let found := pages.filterMap (searchPath path)
  if found.isEmpty then none else some (found.map getListItems).flatten

mutual

/-- Deep merge of two response trees: the base wins, the extra fills the
missing keys, dicts merging recursively. -/
def deepMergeVal : Val → Val → Val
  | .vDict a, .vDict b =>
    .vDict (deepMergeEntries a b ++ b.filter (fun q => (alookup a q.1).isNone))
  | v, _ => v

/-- Deep merge of the entries of a base dict against an overlay dict. -/
def deepMergeEntries : List (String × Val) → List (String × Val) →
    List (String × Val)
  | [], _ => []
  | (k, v) :: rest, b =>
    (match alookup b k with
     | some w => (k, deepMergeVal v w)
     | none => (k, v)) :: deepMergeEntries rest b

end

/-- Modelled from the spec: the build-full-result aggregation: concatenate
each result key across the pages of the run, copy the non-aggregate keys from
the first page, and record the resume token under NextToken when the run was
cut by the max-items budget. -/
def buildFullResult (cfg : PageConfig) (out : RunOut) : Val :=
  let base := cfg.resultKeys.foldl (fun acc path =>
    match aggregatePieces out.pages path with
    | some items => setPath path (.vList items) acc
    | none => acc) (.vDict [])
  let nonAgg := cfg.nonAggregateKeys.foldl (fun acc path =>
    match out.pages.head? >>= searchPath path with
    | some v => setPath path v acc
    | none => acc) (.vDict [])
  let merged := deepMergeVal base nonAgg
  match out.resumeToken with
  | some t => setPath ["NextToken"] (.vStr t) merged
  | none => merged

/-- The index of the first page whose token slots are all absent or empty
(the page on which pagination transitions to exhausted). -/
def firstExhausted (cfg : PageConfig) : List Val → Option Nat
  | [] => none
  | r :: rest =>
    if (extractTokens cfg r).all Option.isNone then some 0
    else (firstExhausted cfg rest).map (· + 1)

/-! ### Protocol serializer and parser engine

Modelled from the spec: the serializer and response parsing modules
(serialize.py, parsers.py) are not in the source tree; only the protocol
compliance test runner is.  The definitions follow sections 4.2 and 4.3 of
the specification: five protocols over one shared shape-directed tree walk;
form-encoded key/value bodies for the form-RPC and legacy-query protocols,
JSON documents for the JSON-RPC and REST-JSON protocols, XML documents for
REST-XML; response parsing for the form protocols consumes the XML response
document.  Wire documents are kept as parsed trees (pair lists, JSON values,
XML node trees); the byte-level rendering is a separate finalization step. -/

mutual

/-- A shape for the codec walk: the scalar, list, map and nested structure
combinations of the round-trip property (the member list of a structure, in
declaration order). -/
inductive PShape where
  | pString
  | pInteger
  | pBoolean
  | pList (elt : PShape)
  | pMap (val : PShape)
  | pStruct (ms : PMembers)

/-- The ordered member list of a structure shape. -/
inductive PMembers where
  | nil
  | cons (name : String) (s : PShape) (rest : PMembers)

end

/-- Whether a member name occurs in a member list. -/
def PMembers.hasName (n : String) : PMembers → Bool
  | .nil => false
  | .cons m _ rest => n == m || PMembers.hasName n rest

mutual

/-- Well-formed shapes: member names are distinct at every structure level. -/
def PShape.wf : PShape → Bool
  | .pList s => PShape.wf s
  | .pMap s => PShape.wf s
  | .pStruct ms => PMembers.wf ms
  | _ => true

/-- Well-formed member lists: no duplicate names, member shapes
well-formed. -/
def PMembers.wf : PMembers → Bool
  | .nil => true
  | .cons n s rest => !(PMembers.hasName n rest) && PShape.wf s && PMembers.wf rest

end

mutual

/-- Whether a parameter value conforms to a shape.  A structure value is an
ordered sub-selection of the declared members (association lists are kept in
member declaration order, the canonical form of an unordered parameter
dict). -/
def conforms : PShape → Val → Bool
  | .pString, .vStr _ => true
  | .pInteger, .vInt _ => true
  | .pBoolean, .vBool _ => true
  | .pList s, .vList xs => xs.all (conforms s)
  | .pMap s, .vDict kvs => kvs.all (fun kv => conforms s kv.2)
  | .pStruct ms, .vDict es => structConforms ms es
  | _, _ => false

/-- Whether structure entries are an ordered sub-selection of the members with
conforming values. -/
def structConforms : PMembers → List (String × Val) → Bool
  | .nil, es => es.isEmpty
  | .cons n s rest, es =>
    match es with
    | [] => true
    | (k, x) :: es' =>
      if k = n then conforms s x && structConforms rest es'
      else structConforms rest ((k, x) :: es')

end

/-- A JSON document value. -/
inductive JVal where
  | jStr : String → JVal
  | jNum : Int → JVal
  | jBool : Bool → JVal
  | jArr : List JVal → JVal
  | jObj : List (String × JVal) → JVal
  | jNull : JVal

mutual

/-- Modelled from the spec: the JSON body serializer: the parameter tree is
serialized as one JSON document by walking the input shape. -/
def jsonSer : PShape → Val → JVal
  | .pString, .vStr s => .jStr s
  | .pInteger, .vInt n => .jNum n
  | .pBoolean, .vBool b => .jBool b
  | .pList s, .vList xs => .jArr (xs.map (jsonSer s))
  | .pMap s, .vDict kvs => .jObj (kvs.map (fun kv => (kv.1, jsonSer s kv.2)))
  | .pStruct ms, .vDict es => .jObj (jsonSerStruct ms es)
  | _, _ => .jNull

/-- Serialize the present members of a structure, in declaration order. -/
def jsonSerStruct : PMembers → List (String × Val) → List (String × JVal)
  | .nil, _ => []
  | .cons n s rest, es =>
    match es with
    | [] => []
    | (k, x) :: es' =>
      if k = n then (n, jsonSer s x) :: jsonSerStruct rest es'
      else jsonSerStruct rest ((k, x) :: es')

end

mutual

/-- Modelled from the spec: the JSON response parser: a shape-directed walk of
the parsed JSON document; each structure member is located in the document by
name and unknown wire fields are ignored; a document that does not match the
declared shape is a malformed response (none). -/
def jsonParse : PShape → JVal → Option Val
  | .pString, .jStr s => some (.vStr s)
  | .pInteger, .jNum n => some (.vInt n)
  | .pBoolean, .jBool b => some (.vBool b)
  | .pList s, .jArr js => (js.mapM (jsonParse s)).map .vList
  | .pMap s, .jObj kjs =>
    (kjs.mapM (fun kj => (jsonParse s kj.2).map ((kj.1, ·)))).map .vDict
  | .pStruct ms, .jObj doc => (jsonParseStruct ms doc).map .vDict
  | _, _ => none

/-- Parse the members of a structure out of a JSON object, skipping the
members absent from the document. -/
def jsonParseStruct : PMembers → List (String × JVal) → Option (List (String × Val))
  | .nil, _ => some []
  | .cons n s rest, doc =>
    match alookup doc n with
    | none => jsonParseStruct rest doc
    | some j =>
      match jsonParse s j, jsonParseStruct rest doc with
      | some v, some vs => some ((n, v) :: vs)
      | _, _ => none

end

/-- An XML document node: an element with a tag and children, or character
data.  The wire document is kept as a parsed tree, as the response parser
receives it from the XML library. -/
inductive XNode where
  | elem (tag : String) (children : List XNode)
  | text (s : String)

/-- The children of the first child element carrying the tag. -/
def findElem (ns : List XNode) (tag : String) : Option (List XNode) :=
  match ns with
  | [] => none
  | .elem t cs :: rest => if t = tag then some cs else findElem rest tag
  | .text _ :: rest => findElem rest tag

/-- The children lists of every child element carrying the tag. -/
def elemsWithTag (ns : List XNode) (tag : String) : List (List XNode) :=
  match ns with
  | [] => []
  | .elem t cs :: rest =>
    if t = tag then cs :: elemsWithTag rest tag else elemsWithTag rest tag
  | .text _ :: rest => elemsWithTag rest tag

/-- The character data of an element body: empty for no children, the text of
a single text child, none for anything else. -/
def textContent (ns : List XNode) : Option String :=
  match ns with
  | [] => some ""
  | [.text s] => some s
  | _ => none

/-- Decimal rendering of an integer. -/
def intWireStr (i : Int) : String :=
  if i < 0 then "-" ++ natWireStr i.natAbs else natWireStr i.natAbs

/-- Boolean wire text. -/
def boolWire (b : Bool) : String := if b then "true" else "false"

/-- Parse of a boolean wire text. -/
def parseBoolStr (s : String) : Option Bool :=
  if s = "true" then some true
  else if s = "false" then some false
  else none

mutual

/-- Modelled from the spec: the XML body serializer (REST-XML requests and
the XML response encoding shared with the query protocols): the body content
of the element for a value: scalars as character data, a non-flattened list
as repeated member elements, a map as entry elements with key and value
children, a structure as one element per present member. -/
def xmlSer : PShape → Val → List XNode
  | .pString, .vStr s => [.text s]
  | .pInteger, .vInt n => [.text (intWireStr n)]
  | .pBoolean, .vBool b => [.text (boolWire b)]
  | .pList s, .vList xs => xs.map (fun x => .elem "member" (xmlSer s x))
  | .pMap s, .vDict kvs =>
    kvs.map (fun kv =>
      .elem "entry" [.elem "key" [.text kv.1], .elem "value" (xmlSer s kv.2)])
  | .pStruct ms, .vDict es => xmlSerStruct ms es
  | _, _ => []

/-- Serialize the present members of a structure as elements, in declaration
order. -/
def xmlSerStruct : PMembers → List (String × Val) → List XNode
  | .nil, _ => []
  | .cons n s rest, es =>
    match es with
    | [] => []
    | (k, x) :: es' =>
      if k = n then .elem n (xmlSer s x) :: xmlSerStruct rest es'
      else xmlSerStruct rest ((k, x) :: es')

end

mutual

/-- Modelled from the spec: the XML response parser (query, form-RPC and
REST-XML protocols): a shape-directed walk of the parsed XML tree; each
structure member is located by its element tag, lists iterate the member
elements, maps read entry elements, unknown elements are ignored; a body that
does not match is a malformed response (none). -/
def xmlParse : PShape → List XNode → Option Val
  | .pString, ns => (textContent ns).map .vStr
  | .pInteger, ns => (textContent ns).bind fun s => (parseIntStr s).map .vInt
  | .pBoolean, ns => (textContent ns).bind fun s => (parseBoolStr s).map .vBool
  | .pList s, ns => ((elemsWithTag ns "member").mapM (xmlParse s)).map .vList
  | .pMap s, ns =>
    ((elemsWithTag ns "entry").mapM fun cs =>
      match findElem cs "key", findElem cs "value" with
      | some kns, some vns =>
        match textContent kns, xmlParse s vns with
        | some k, some v => some (k, v)
        | _, _ => none
      | _, _ => none).map .vDict
  | .pStruct ms, ns => (xmlParseStruct ms ns).map .vDict

/-- Parse the members of a structure out of an element body, skipping members
with no matching element. -/
def xmlParseStruct : PMembers → List XNode → Option (List (String × Val))
  | .nil, _ => some []
  | .cons n s rest, ns =>
    match findElem ns n with
    | none => xmlParseStruct rest ns
    | some cs =>
      match xmlParse s cs, xmlParseStruct rest ns with
      | some v, some vs => some ((n, v) :: vs)
      | _, _ => none

end

/-- Join a key path segment onto a flattened query key. -/
def dotJoin (pfx name : String) : String :=
  if pfx = "" then name else pfx ++ "." ++ name

mutual

/-- Modelled from the spec: the form-RPC and legacy-query request serializer:
parameters are flattened into ordered key=value pairs by walking the input
shape; list members produce one-based indexed member keys; maps produce
indexed entry keys with key and value sub-keys; structure members extend the
dotted key prefix. -/
def querySer : String → PShape → Val → List (String × String)
  | pfx, .pString, .vStr s => [(pfx, s)]
  | pfx, .pInteger, .vInt n => [(pfx, intWireStr n)]
  | pfx, .pBoolean, .vBool b => [(pfx, boolWire b)]
  | pfx, .pList s, .vList xs => querySerList pfx s 1 xs
  | pfx, .pMap s, .vDict kvs => querySerMap pfx s 1 kvs
  | pfx, .pStruct ms, .vDict es => querySerStruct pfx ms es
  | _, _, _ => []

/-- Flatten list items under one-based indexed member keys. -/
def querySerList : String → PShape → Nat → List Val → List (String × String)
  | _, _, _, [] => []
  | pfx, s, i, x :: xs =>
    querySer (dotJoin pfx ("member." ++ natWireStr i)) s x ++
      querySerList pfx s (i + 1) xs

/-- Flatten map entries under one-based indexed entry keys. -/
def querySerMap : String → PShape → Nat → List (String × Val) →
    List (String × String)
  | _, _, _, [] => []
  | pfx, s, i, (k, x) :: kvs =>
    let e := dotJoin pfx ("entry." ++ natWireStr i)
    (e ++ ".key", k) :: querySer (e ++ ".value") s x ++ querySerMap pfx s (i + 1) kvs

/-- Flatten the present members of a structure under their dotted keys. -/
def querySerStruct : String → PMembers → List (String × Val) →
    List (String × String)
  | _, .nil, _ => []
  | pfx, .cons n s rest, es =>
    match es with
    | [] => []
    | (k, x) :: es' =>
      if k = n then querySer (dotJoin pfx n) s x ++ querySerStruct pfx rest es'
      else querySerStruct pfx rest ((k, x) :: es')

end

/-- The five wire protocols. -/
inductive Protocol where
  | ec2
  | query
  | json
  | restJson
  | restXml
deriving DecidableEq

/-- A wire body document: form-encoded key/value pairs, a JSON document, or an
XML document. -/
inductive WireBody where
  | formPairs (ps : List (String × String))
  | jsonDoc (j : JVal)
  | xmlDoc (ns : List XNode)

/-- Modelled from the spec: the body document each protocol's serializer
produces for a parameter tree; the form protocols also inject the operation
name and API version as top-level fields. -/
def serializeBody (proto : Protocol) (opName apiVersion : String)
    (shape : PShape) (params : Val) : WireBody :=
  match proto with
  | .ec2 | .query =>
    .formPairs (("Action", opName) :: ("Version", apiVersion) ::
      querySer "" shape params)
  | .json | .restJson => .jsonDoc (jsonSer shape params)
  | .restXml => .xmlDoc (xmlSer shape params)

/-- Modelled from the spec: the body document each protocol's parser consumes
against an output shape: the query, form-RPC and REST-XML parsers consume an
XML document, the JSON parsers a JSON document; any other body kind is a
malformed response (none). -/
def parseBody (proto : Protocol) (shape : PShape) (body : WireBody) : Option Val :=
  match proto with
  | .ec2 | .query | .restXml =>
    match body with
    | .xmlDoc ns => xmlParse shape ns
    | _ => none
  | .json | .restJson =>
    match body with
    | .jsonDoc j => jsonParse shape j
    | _ => none

/-! ### Request descriptor and body finalization -/

/-- Form-encoding of key/value pairs into one byte string (the percent
escaping of individual characters is abstracted; nothing below depends on
it). -/
def urlencodePairs (ps : List (String × String)) : String :=
  String.intercalate "&" (ps.map (fun p => p.1 ++ "=" ++ p.2))

mutual

/-- Byte rendering of a JSON document (character escaping abstracted). -/
def jsonRender : JVal → String
  | .jStr s => "\"" ++ s ++ "\""
  | .jNum n => intWireStr n
  | .jBool b => boolWire b
  | .jNull => "null"
  | .jArr js => "[" ++ jsonRenderList js ++ "]"
  | .jObj kjs => "\x7b" ++ jsonRenderObj kjs ++ "\x7d"

/-- Byte rendering of JSON array elements. -/
def jsonRenderList : List JVal → String
  | [] => ""
  | [j] => jsonRender j
  | j :: js => jsonRender j ++ "," ++ jsonRenderList js

/-- Byte rendering of JSON object entries. -/
def jsonRenderObj : List (String × JVal) → String
  | [] => ""
  | [(k, j)] => "\"" ++ k ++ "\":" ++ jsonRender j
  | (k, j) :: kjs => "\"" ++ k ++ "\":" ++ jsonRender j ++ "," ++ jsonRenderObj kjs

end

mutual

/-- Byte rendering of an XML node (character escaping abstracted). -/
def xmlRender : XNode → String
  | .text s => s
  | .elem t cs => "<" ++ t ++ ">" ++ xmlRenderList cs ++ "</" ++ t ++ ">"

/-- Byte rendering of a list of XML nodes. -/
def xmlRenderList : List XNode → String
  | [] => ""
  | n :: ns => xmlRender n ++ xmlRenderList ns

end

/-- The body slot of a request descriptor: either a still lazily-encodable
wire structure (an un-encoded mapping of pairs, an un-dumped document), or a
finalized byte sequence. -/
inductive Body where
  | raw (w : WireBody)
  | bytes (s : String)

/-- The transport-agnostic request descriptor of section 6. -/
structure RequestDescriptor where
  method : String
  urlPath : String
  queryString : List (String × String)
  headers : List (String × String)
  body : Body

/-- Modelled from the spec: serialize_to_request for each protocol.  The JSON
and XML serializers dump their document to bytes themselves; the form
protocols leave the ordered key/value mapping in the descriptor (the
compliance test runner and the transport boundary finalize it), which is the
behaviour the finalization step below must close. -/
def serializeToRequest (proto : Protocol) (opName apiVersion method uri : String)
    (shape : PShape) (params : Val) : RequestDescriptor :=
  match proto with
  | .ec2 | .query =>
    ⟨"POST", uri, [], [], .raw (serializeBody proto opName apiVersion shape params)⟩
  | .json =>
    ⟨"POST", uri, [], [("X-Amz-Target", opName)],
      .bytes (jsonRender (jsonSer shape params))⟩
  | .restJson =>
    ⟨method, uri, [], [], .bytes (jsonRender (jsonSer shape params))⟩
  | .restXml =>
    ⟨method, uri, [], [], .bytes (xmlRenderList (xmlSer shape params))⟩

/-- Finalization of a request descriptor at the boundary to the transport
layer, as the compliance test runner performs it: a body still held as a wire
structure is encoded into its byte sequence (form pairs urlencoded, documents
dumped); a body already in bytes is passed through. -/
def finalizeRequest (r : RequestDescriptor) : RequestDescriptor :=
  match r.body with
  | .raw (.formPairs ps) =>
    ⟨r.method, r.urlPath, r.queryString, r.headers, .bytes (urlencodePairs ps)⟩
  | .raw (.jsonDoc j) =>
    ⟨r.method, r.urlPath, r.queryString, r.headers, .bytes (jsonRender j)⟩
  | .raw (.xmlDoc ns) =>
    ⟨r.method, r.urlPath, r.queryString, r.headers, .bytes (xmlRenderList ns)⟩
  | .bytes _ => r

/-! ### Concrete fixtures

Shape tables, service models and pagination scenarios mirroring the
repository's unit tests, used to instantiate the theorems below. -/

/-- The map shape of the deep-merge fixture: definition-level traits carry
flattened and a decoy name key; key and value references rename their
locations. -/
def fxStrToStrMap : ShapeDef :=
  ⟨some "map", [], none,
   some ⟨some "StringType", none, [("locationName", .vStr "Name")]⟩,
   some ⟨some "StringType", none, [("locationName", .vStr "Value")]⟩,
   [("flattened", .vBool true), ("name", .vStr "NotAttribute")]⟩

/-- The deep-merge fixture table: two structures referencing the same map
shape from different sites with different location names. -/
def fxTableSQA : ShapeTable :=
  [("SetQueueAttributes", ⟨some "structure",
     [("MapExample", ⟨some "StrToStrMap", none,
       [("locationName", .vStr "Attribute")]⟩)], none, none, none, []⟩),
   ("SetQueueAttributes2", ⟨some "structure",
     [("MapExample", ⟨some "StrToStrMap", none,
       [("locationName", .vStr "Attribute2")]⟩)], none, none, none, []⟩),
   ("StrToStrMap", fxStrToStrMap),
   ("StringType", ⟨some "string", [], none, none, none, []⟩)]

/-- A table whose only shape lacks the type discriminator. -/
def fxTableMissingType : ShapeTable :=
  [("UnknownType", ⟨none, [], none, none, none,
    [("NotTheTypeKey", .vStr "someUnknownType")]⟩)]

/-- A denormalized table: structure members carry inline type definitions
instead of shape references. -/
def fxTableInline : ShapeTable :=
  [("Struct", ⟨some "structure",
    [("A", ⟨none, some "string", []⟩), ("B", ⟨none, some "string", []⟩)],
    none, none, none, []⟩)]

/-- The streaming-output fixture: the response structure declares a payload
member of blob type. -/
def fxSvcStreaming : ServiceDef :=
  ⟨[("protocol", .vStr "query"), ("endpointPrefix", .vStr "foo")],
   [("OperationNameResponse", ⟨some "structure",
     [("String", ⟨some "stringType", none, []⟩),
      ("Body", ⟨some "blobType", none, []⟩)],
     none, none, none, [("payload", .vStr "Body")]⟩),
    ("stringType", ⟨some "string", [], none, none, none, []⟩),
    ("blobType", ⟨some "blob", [], none, none, none, []⟩)],
   [("OperationName", ⟨some "OperationName", none, none, none,
     some ⟨some "OperationNameResponse", none, []⟩⟩)]⟩

/-- The streaming-output fixture operation. -/
def fxOpStreaming : OperationDef :=
  ⟨some "OperationName", none, none, none,
   some ⟨some "OperationNameResponse", none, []⟩⟩

/-- The non-streaming payload fixture: the payload member is a string. -/
def fxSvcNonStreaming : ServiceDef :=
  ⟨[("protocol", .vStr "query"), ("endpointPrefix", .vStr "foo")],
   [("OperationNameResponse", ⟨some "structure",
     [("String", ⟨some "stringType", none, []⟩)],
     none, none, none, [("payload", .vStr "String")]⟩),
    ("stringType", ⟨some "string", [], none, none, none, []⟩)],
   [("OperationName", ⟨some "OperationName", none, none, none,
     some ⟨some "OperationNameResponse", none, []⟩⟩)]⟩

/-- The non-streaming fixture operation. -/
def fxOpNonStreaming : OperationDef :=
  ⟨some "OperationName", none, none, none,
   some ⟨some "OperationNameResponse", none, []⟩⟩

/-- An operation that declares no output. -/
def fxOpNoOutput : OperationDef := ⟨some "OperationName", none, none, none, none⟩

/-- The single next-token pagination contract of the pagination tests. -/
def fxCfgNT : PageConfig :=
  ⟨["NextToken"], [[["NextToken"]]], [["Foo"]], none, none, []⟩

/-- Three pages: two with tokens, a third with none. -/
def fxRespsNT : List Val :=
  [.vDict [("NextToken", .vStr "token1")],
   .vDict [("NextToken", .vStr "token2")],
   .vDict [("not_next_token", .vStr "foo")]]

/-- Three pages where the second and third report the identical token. -/
def fxRespsDup : List Val :=
  [.vDict [("NextToken", .vStr "token1")],
   .vDict [("NextToken", .vStr "token2")],
   .vDict [("NextToken", .vStr "token2")]]

/-- The marker/users pagination contract of the key-iterator tests. -/
def fxCfgM : PageConfig :=
  ⟨["Marker"], [[["Marker"]]], [["Users"]], none, none, []⟩

/-- Pages of three, three and one users, cut by a max-items budget of four. -/
def fxRespsTrunc : List Val :=
  [.vDict [("Users", .vList [.vStr "User1", .vStr "User2", .vStr "User3"]),
           ("Marker", .vStr "m1")],
   .vDict [("Users", .vList [.vStr "User4", .vStr "User5", .vStr "User6"]),
           ("Marker", .vStr "m2")],
   .vDict [("Users", .vList [.vStr "User7"])]]

/-- The remaining pages when resuming from the mid-page cut. -/
def fxRespsResume : List Val :=
  [.vDict [("Users", .vList [.vStr "User4", .vStr "User5", .vStr "User6"]),
           ("Marker", .vStr "m2")],
   .vDict [("Users", .vList [.vStr "User7"])]]

/-- A round-trip example shape: a structure of a scalar, a list and a map. -/
def fxShapeRT : PShape :=
  .pStruct (.cons "A" .pString (.cons "B" (.pList .pInteger)
    (.cons "C" (.pMap .pBoolean) .nil)))

/-- A conforming parameter tree for the round-trip example shape. -/
def fxParamsRT : Val :=
  .vDict [("A", .vStr "hello"),
          ("B", .vList [.vInt 3, .vInt (-7)]),
          ("C", .vDict [("k1", .vBool true), ("k2", .vBool false)])]

/-- The serialization bag of a named member of a named structure shape, as the
deep-merge tests read it. -/
def memberSerialization (t : ShapeTable) (structName member : String) :
    Option (List (String × Val)) :=
  match getShapeByName t structName with
  | .ok sh =>
    match structMembers t sh with
    | .ok ms => (alookup ms member).map Shape.serialization
    | .error _ => none
  | .error _ => none

/-! ## Theorems -/

mutual

theorem Val.beq_iff : ∀ (a b : Val), (Val.beq a b = true ↔ a = b)
  | a, b => by
    cases a <;> cases b <;> simp only [Val.beq] <;> try simp
    case vList.vList as bs => rw [Val.listBeq_iff as bs]
    case vDict.vDict as bs => rw [Val.dictBeq_iff as bs]

theorem Val.listBeq_iff : ∀ (as bs : List Val), (Val.beq.listBeq as bs = true ↔ as = bs)
  | as, bs => by
    cases as <;> cases bs <;> simp only [Val.beq.listBeq] <;> try simp
    case cons.cons a as b bs => rw [Val.beq_iff a b, Val.listBeq_iff as bs]

theorem Val.dictBeq_iff : ∀ (as bs : List (String × Val)),
    (Val.beq.dictBeq as bs = true ↔ as = bs)
  | as, bs => by
    cases as <;> cases bs <;> simp only [Val.beq.dictBeq] <;> try simp
    case cons.cons a as b bs =>
      rw [Val.beq_iff a.2 b.2, Val.dictBeq_iff as bs]
      simp [Prod.ext_iff]

end

instance : DecidableEq Val := fun a b => decidable_of_iff _ (Val.beq_iff a b)

theorem alookup_cons (k' : String) (v : α) (l : List (String × α)) (k : String) :
    alookup ((k', v) :: l) k = if k' = k then some v else alookup l k := rfl

theorem alookup_aset_self (l : List (String × α)) (k : String) (v : α) :
    alookup (aset l k v) k = some v := by
  induction l with
  | nil => simp [aset, alookup]
  | cons p rest ih =>
    obtain ⟨k', v'⟩ := p
    by_cases h : k' = k
    · simp [aset, h, alookup]
    · simp [aset, h, alookup, ih]

theorem alookup_aset_ne (l : List (String × α)) (k : String) (v : α) (k' : String)
    (h : k' ≠ k) : alookup (aset l k v) k' = alookup l k' := by
  induction l with
  | nil =>
    simp only [aset, alookup]
    rw [if_neg (Ne.symm h)]
  | cons p rest ih =>
    obtain ⟨k0, v0⟩ := p
    by_cases h0 : k0 = k
    · subst h0
      simp only [aset, if_pos rfl, alookup]
      rw [if_neg (Ne.symm h), if_neg (Ne.symm h)]
    · simp only [aset, if_neg h0, alookup]
      by_cases h1 : k0 = k'
      · rw [if_pos h1, if_pos h1]
      · rw [if_neg h1, if_neg h1, ih]

theorem alookup_adel_self (l : List (String × α)) (k : String) :
    alookup (adel l k) k = none := by
  induction l with
  | nil => rfl
  | cons p rest ih =>
    obtain ⟨k0, v0⟩ := p
    by_cases h0 : k0 = k
    · simp only [adel, if_pos h0]
      exact ih
    · simp only [adel, if_neg h0, alookup]
      exact ih

theorem alookup_adel_ne (l : List (String × α)) (k k' : String) (h : k' ≠ k) :
    alookup (adel l k) k' = alookup l k' := by
  induction l with
  | nil => rfl
  | cons p rest ih =>
    obtain ⟨k0, v0⟩ := p
    by_cases h0 : k0 = k
    · subst h0
      simp only [adel, if_pos rfl, alookup]
      rw [if_neg (Ne.symm h)]
      exact ih
    · simp only [adel, if_neg h0, alookup]
      by_cases h1 : k0 = k'
      · rw [if_pos h1, if_pos h1]
      · rw [if_neg h1, if_neg h1]
        exact ih

theorem alookup_eq_none (l : List (String × α)) (k : String) (h : k ∉ akeys l) :
    alookup l k = none := by
  induction l with
  | nil => rfl
  | cons p rest ih =>
    obtain ⟨k0, v0⟩ := p
    simp only [akeys, List.map_cons, List.mem_cons, not_or] at h
    simp only [alookup]
    rw [if_neg (fun hh => h.1 (Eq.symm hh))]
    exact ih h.2

theorem alookup_dictUpdate (base upd : List (String × α))
    (h : (akeys upd).Nodup) (k : String) :
    alookup (dictUpdate base upd) k = (alookup upd k).or (alookup base k) := by
  induction upd generalizing base with
  | nil => simp [dictUpdate, alookup, Option.or]
  | cons p rest ih =>
    obtain ⟨k0, v0⟩ := p
    have hrest : (akeys rest).Nodup := (List.nodup_cons.mp h).2
    have hk0 : k0 ∉ akeys rest := (List.nodup_cons.mp h).1
    have hstep : dictUpdate base ((k0, v0) :: rest) = dictUpdate (aset base k0 v0) rest := rfl
    rw [hstep, ih (aset base k0 v0) hrest]
    by_cases hkk : k0 = k
    · subst hkk
      rw [alookup_eq_none rest k0 hk0, alookup_aset_self]
      simp [alookup, Option.or]
    · rw [alookup_aset_ne base k0 v0 k (fun hh => hkk hh.symm)]
      simp [alookup, hkk]

/-- Claim C2: the resolved member's merged trait dict is the definition-level
traits overridden by the reference-site traits, reference site winning on
every conflicting key (stated pointwise over the merge); the resolution hands
back the definition unchanged (all dicts are persistent values here, so
neither the definition's nor the reference site's trait dict is mutated); and
on the deep-merge fixture the two reference sites to the shared map shape get
independently correct serialization bags (name Attribute versus name
Attribute2, both over the shared flattened trait). -/
theorem reference_site_trait_merge :
    (∀ (t : ShapeTable) (name : String) (defn : ShapeDef)
        (refTraits : List (String × Val)) (sh : Shape),
        t.find name = some defn → (akeys refTraits).Nodup →
        getShapeWithTraits t name refTraits = .ok sh →
        (∀ k, alookup sh.mergedTraits k =
          (alookup refTraits k).or (alookup defn.traits k)) ∧ sh.defn = defn) ∧
    memberSerialization fxTableSQA "SetQueueAttributes" "MapExample" =
      some [("name", .vStr "Attribute"), ("flattened", .vBool true)] ∧
    memberSerialization fxTableSQA "SetQueueAttributes2" "MapExample" =
      some [("name", .vStr "Attribute2"), ("flattened", .vBool true)] := by
  refine ⟨?_, by rfl, by rfl⟩
  intro t name defn refTraits sh hfind hnd hres
  unfold getShapeWithTraits at hres
  rw [hfind] at hres
  dsimp only at hres
  cases hty : defn.typeTag with
  | none =>
    rw [hty] at hres
    simp at hres
  | some ty =>
    rw [hty] at hres
    dsimp only at hres
    by_cases hrec : recognizedTypes.contains ty
    · rw [if_pos hrec] at hres
      have hsh : sh = ⟨name, ty, dictUpdate defn.traits refTraits, defn⟩ :=
        (Except.ok.inj hres).symm
      subst hsh
      exact ⟨fun k => alookup_dictUpdate defn.traits refTraits hnd k, rfl⟩
    · rw [if_neg hrec] at hres
      simp at hres

/-- Witness for claim C2 at the deep-merge fixture's map shape and its first
reference site. -/
theorem reference_site_trait_merge_witness :
    alookup (dictUpdate fxStrToStrMap.traits
      [("locationName", Val.vStr "Attribute")]) "locationName" =
      some (Val.vStr "Attribute") ∧
    alookup (dictUpdate fxStrToStrMap.traits
      [("locationName", Val.vStr "Attribute")]) "flattened" =
      some (Val.vBool true) := by
  have h := (reference_site_trait_merge.1 fxTableSQA "StrToStrMap" fxStrToStrMap
    [("locationName", Val.vStr "Attribute")]
    ⟨"StrToStrMap", "map",
     dictUpdate fxStrToStrMap.traits [("locationName", Val.vStr "Attribute")],
     fxStrToStrMap⟩ rfl (by decide) rfl).1
  exact ⟨(h "locationName").trans rfl, (h "flattened").trans rfl⟩

/-- Helper: member resolution fails with the error of the first failing
member when everything before it resolves. -/
theorem mapMembers_error_of_first (t : ShapeTable) (pre : List (String × ShapeRef))
    (q : String × ShapeRef) (post : List (String × ShapeRef)) (e : ModelError)
    (hpre : ∀ m ∈ pre, ∃ b, resolveShapeRef t m.2 = .ok b)
    (ha : resolveShapeRef t q.2 = .error e) :
    mapMembers t (pre ++ q :: post) = .error e := by
  induction pre with
  | nil => simp [mapMembers, ha]
  | cons x xs ih =>
    obtain ⟨b, hb⟩ := hpre x (by simp)
    have hx := ih (fun m hm => hpre m (by simp [hm]))
    simp [mapMembers, hb, hx]

/-- Claim C6: the shape resolver's error contract: an undeclared name fails
with noShapeFound; a definition lacking a recognized type discriminator fails
with invalidShape; resolving a structure's members fails with
invalidShapeReference when a member is an inline definition (a type key and
no shape key) and every member before it resolves. -/
theorem shape_resolver_error_contract :
    (∀ (t : ShapeTable) (name : String), t.find name = none →
        getShapeByName t name = .error (.noShapeFound name)) ∧
    (∀ (t : ShapeTable) (name : String) (defn : ShapeDef),
        t.find name = some defn →
        (∀ ty, defn.typeTag = some ty → recognizedTypes.contains ty = false) →
        ∃ msg, getShapeByName t name = .error (.invalidShape msg)) ∧
    (∀ (t : ShapeTable) (s : Shape) (pre : List (String × ShapeRef))
        (n : String) (ref : ShapeRef) (post : List (String × ShapeRef)),
        s.defn.members = pre ++ (n, ref) :: post →
        (∀ m ∈ pre, ∃ shm, resolveShapeRef t m.2 = .ok shm) →
        ref.shape = none →
        ∃ msg, structMembers t s = .error (.invalidShapeReference msg)) := by
  refine ⟨?_, ?_, ?_⟩
  · intro t name hfind
    unfold getShapeByName getShapeWithTraits
    rw [hfind]
  · intro t name defn hfind htype
    unfold getShapeByName getShapeWithTraits
    rw [hfind]
    dsimp only
    cases hty : defn.typeTag with
    | none => exact ⟨_, rfl⟩
    | some ty =>
      dsimp only
      rw [if_neg (fun hc => by
        have hh := htype ty hty
        rw [hh] at hc
        cases hc)]
      exact ⟨_, rfl⟩
  · intro t s pre n ref post hmem hpre href
    refine ⟨"Invalid model, missing shape reference (inline definition?)", ?_⟩
    unfold structMembers
    rw [hmem]
    exact mapMembers_error_of_first t pre (n, ref) post _ hpre
      (by simp only [resolveShapeRef, href])

/-- Witness for claim C6: the empty table misses every name; the fixture
whose shape lacks a type key is invalid; the denormalized fixture with inline
member definitions fails member resolution. -/
theorem shape_resolver_error_contract_witness :
    getShapeByName ([] : ShapeTable) "NoExistShape" =
      .error (.noShapeFound "NoExistShape") ∧
    (∃ msg, getShapeByName fxTableMissingType "UnknownType" =
      .error (.invalidShape msg)) ∧
    (∃ msg, structMembers fxTableInline
      ⟨"Struct", "structure", [],
       ⟨some "structure",
        [("A", ⟨none, some "string", []⟩), ("B", ⟨none, some "string", []⟩)],
        none, none, none, []⟩⟩ = .error (.invalidShapeReference msg)) := by
  refine ⟨shape_resolver_error_contract.1 ([] : ShapeTable) "NoExistShape" rfl,
    shape_resolver_error_contract.2.1 fxTableMissingType "UnknownType"
      ⟨none, [], none, none, none, [("NotTheTypeKey", .vStr "someUnknownType")]⟩
      rfl (fun ty hty => by cases hty),
    shape_resolver_error_contract.2.2 fxTableInline _ []
      "A" ⟨none, some "string", []⟩ [("B", ⟨none, some "string", []⟩)] rfl
      (fun m hm => absurd hm (List.not_mem_nil m)) rfl⟩

/-- Claim C9: an operation that declares no output resolves to an absent
output shape without error; and the streaming-output flag holds exactly when
the resolved output structure's serialization bag names a payload member
whose resolved shape has blob type.  On the fixtures, the blob payload
operation streams and the string payload operation does not. -/
theorem operation_output_contract :
    (∀ (svc : ServiceDef) (op : OperationDef), op.outputRef = none →
        outputShape svc op = .ok none) ∧
    (∀ (svc : ServiceDef) (op : OperationDef),
        hasStreamingOutput svc op = true ↔
        ∃ sh p ms psh,
          outputShape svc op = .ok (some sh) ∧
          alookup sh.serialization "payload" = some (.vStr p) ∧
          structMembers svc.shapes sh = .ok ms ∧
          alookup ms p = some psh ∧ psh.typeName = "blob") ∧
    hasStreamingOutput fxSvcStreaming fxOpStreaming = true ∧
    hasStreamingOutput fxSvcNonStreaming fxOpNonStreaming = false := by
  refine ⟨?_, ?_, by rfl, by rfl⟩
  · intro svc op href
    unfold outputShape
    rw [href]
  · intro svc op
    constructor
    · intro h
      unfold hasStreamingOutput at h
      cases ho : outputShape svc op with
      | error e => rw [ho] at h; simp at h
      | ok osh =>
        rw [ho] at h
        cases osh with
        | none => simp at h
        | some sh =>
          dsimp only at h
          cases hp : alookup sh.serialization "payload" with
          | none => rw [hp] at h; simp at h
          | some pv =>
            rw [hp] at h
            cases pv with
            | vStr p =>
              dsimp only at h
              cases hm : structMembers svc.shapes sh with
              | error e => rw [hm] at h; simp at h
              | ok ms =>
                rw [hm] at h
                dsimp only at h
                cases hps : alookup ms p with
                | none => rw [hps] at h; simp at h
                | some psh =>
                  rw [hps] at h
                  dsimp only at h
                  exact ⟨sh, p, ms, psh, rfl, hp, hm, hps, by simpa using h⟩
            | vInt n => simp at h
            | vBool b => simp at h
            | vList l => simp at h
            | vDict d => simp at h
            | vNull => simp at h
    · rintro ⟨sh, p, ms, psh, h1, h2, h3, h4, h5⟩
      unfold hasStreamingOutput
      rw [h1]
      dsimp only
      rw [h2]
      dsimp only
      rw [h3]
      dsimp only
      rw [h4]
      simp [h5]

/-- Witness for claim C9: the no-output operation of the streaming fixture,
and the streaming fixture's payload evidence extracted through the
characterization. -/
theorem operation_output_contract_witness :
    outputShape fxSvcStreaming fxOpNoOutput = .ok none ∧
    (∃ sh p ms psh,
      outputShape fxSvcStreaming fxOpStreaming = .ok (some sh) ∧
      alookup sh.serialization "payload" = some (.vStr p) ∧
      structMembers fxSvcStreaming.shapes sh = .ok ms ∧
      alookup ms p = some psh ∧ psh.typeName = "blob") :=
  ⟨operation_output_contract.1 fxSvcStreaming fxOpNoOutput rfl,
   (operation_output_contract.2.1 fxSvcStreaming fxOpStreaming).mp (by rfl)⟩



/-! ### Paginator lemmas -/

theorem runLoop_nil_eq (cfg : PageConfig) (mi : Option Nat) (kw : Args)
    (ct : List (Option Val)) (pv : Option (List (Option Val))) (tot : Nat)
    (fo : Option Nat) : runLoop cfg mi kw ct pv tot fo [] = ⟨[], [], none, none⟩ := rfl

theorem runLoop_cons_simple (cfg : PageConfig) (kw : Args) (ct : List (Option Val))
    (pv : Option (List (Option Val))) (tot : Nat) (r : Val) (rest : List Val) :
    runLoop cfg none kw ct pv tot none (r :: rest) =
      (if (extractTokens cfg r).all Option.isNone then ⟨[kw], [r], none, none⟩
       else if prevBeq pv (extractTokens cfg r) then
         ⟨[kw], [r], none, some .sameNextToken⟩
       else consCall kw r
         (runLoop cfg none (injectTokens cfg.inputToken kw (extractTokens cfg r))
           (extractTokens cfg r) (some (extractTokens cfg r))
           (tot + (getListV (searchPath (cfg.resultKeys.headD []) r)).length)
           none rest)) := rfl

theorem runLoop_cons_eq (cfg : PageConfig) (mi : Option Nat) (kw : Args)
    (ct : List (Option Val)) (pv : Option (List (Option Val))) (tot : Nat)
    (fo : Option Nat) (r : Val) (rest : List Val) :
    runLoop cfg mi kw ct pv tot fo (r :: rest) =
      (let page := match fo with
        | some k => handleFirstRequest cfg k r
        | none => r
      let primary := cfg.resultKeys.headD []
      let cur := getListV (searchPath primary page)
      let num := cur.length
      let doTrunc := match mi with
        | some m => decide (m < tot + num)
        | none => false
      if doTrunc then
        let m := mi.getD 0
        let keep := m - tot
        let page2 := setPath primary (.vList (cur.take keep)) page
        let off := keep + fo.getD 0
        ⟨[kw], [page2], some (encodeToken ct (some off)), none⟩
      else
        let toks := extractTokens cfg page
        if toks.all Option.isNone then ⟨[kw], [page], none, none⟩
        else if mi = some (tot + num) then
          ⟨[kw], [page], some (encodeToken toks none), none⟩
        else if prevBeq pv toks then
          ⟨[kw], [page], none, some .sameNextToken⟩
        else
          consCall kw page
            (runLoop cfg mi (injectTokens cfg.inputToken kw toks) toks
              (some toks) (tot + num) none rest)) := rfl

theorem injectPageSize_none (lk : Option String) (kw : Args) :
    injectPageSize lk none kw = kw := by
  cases lk <;> rfl

theorem extractTokens_length (cfg : PageConfig) (page : Val) :
    (extractTokens cfg page).length = cfg.outputToken.length := by
  rcases hm : cfg.moreResults with _ | mp
  · simp [extractTokens, hm]
  · simp only [extractTokens, hm]
    split <;> simp

theorem optValBeq_iff (a b : Option Val) : optValBeq a b = true ↔ a = b := by
  cases a <;> cases b <;> simp [optValBeq, Val.beq_iff]

theorem tokListBeq_iff (a b : List (Option Val)) : tokListBeq a b = true ↔ a = b := by
  induction a generalizing b with
  | nil => cases b <;> simp [tokListBeq]
  | cons x xs ih => cases b <;> simp [tokListBeq, optValBeq_iff, ih]

theorem injectTokens_cons (n : String) (ns : List String) (kw : Args)
    (t : Option Val) (ts : List (Option Val)) :
    injectTokens (n :: ns) kw (t :: ts) = injectTokens ns (injectOne kw n t) ts := rfl

theorem injectTokens_nil_toks (names : List String) (kw : Args) :
    injectTokens names kw [] = kw := by
  cases names <;> rfl

theorem alookup_injectOne_ne (kw : Args) (n : String) (t : Option Val) (k : String)
    (h : k ≠ n) : alookup (injectOne kw n t) k = alookup kw k := by
  cases t with
  | some v => exact alookup_aset_ne kw n v k h
  | none => exact alookup_adel_ne kw n k h

theorem alookup_injectTokens_not_mem : ∀ (names : List String)
    (toks : List (Option Val)) (kw : Args) (k : String), k ∉ names →
    alookup (injectTokens names kw toks) k = alookup kw k := by
  intro names
  induction names with
  | nil => intro toks kw k _; rfl
  | cons n ns ih =>
    intro toks kw k hk
    cases toks with
    | nil => rfl
    | cons t ts =>
      rw [injectTokens_cons, ih ts _ k (fun h => hk (List.mem_cons_of_mem n h))]
      exact alookup_injectOne_ne kw n t k (fun h => hk (h ▸ List.mem_cons_self n ns))

theorem alookup_injectTokens_congr : ∀ (names : List String)
    (toks : List (Option Val)) (kw1 kw2 : Args), names.Nodup →
    names.length ≤ toks.length →
    (∀ k, k ∉ names → alookup kw1 k = alookup kw2 k) →
    ∀ k, alookup (injectTokens names kw1 toks) k =
      alookup (injectTokens names kw2 toks) k := by
  intro names
  induction names with
  | nil => intro toks kw1 kw2 _ _ hoff k; exact hoff k (List.not_mem_nil k)
  | cons n ns ih =>
    intro toks kw1 kw2 hnd hlen hoff k
    cases toks with
    | nil => simp at hlen
    | cons t ts =>
      rw [injectTokens_cons, injectTokens_cons]
      refine ih ts (injectOne kw1 n t) (injectOne kw2 n t)
        (List.nodup_cons.mp hnd).2 (by simpa using hlen) ?_ k
      intro k' hk'
      by_cases hkn : k' = n
      · subst hkn
        cases t with
        | some v =>
          simp only [injectOne]
          rw [alookup_aset_self, alookup_aset_self]
        | none =>
          simp only [injectOne]
          rw [alookup_adel_self, alookup_adel_self]
      · rw [alookup_injectOne_ne kw1 n t k' hkn, alookup_injectOne_ne kw2 n t k' hkn]
        exact hoff k' (by simp [hk', hkn])

/-- Helper: the shape of a simple pagination run (no max items, no starting
token): one call per consumed page, pages consumed in order up to the first
exhausted page, the first call with the base kwargs, and every later call
carrying exactly the tokens extracted from its preceding page over the base
kwargs. -/
theorem runLoop_sequence (cfg : PageConfig) (base : Args) :
    ∀ (rs : List Val) (kw : Args) (ct : List (Option Val))
      (pv : Option (List (Option Val))) (tot : Nat),
      cfg.inputToken.length = cfg.outputToken.length →
      cfg.inputToken.Nodup →
      (∀ k, k ∉ cfg.inputToken → alookup kw k = alookup base k) →
      (runLoop cfg none kw ct pv tot none rs).err = none →
      (runLoop cfg none kw ct pv tot none rs).calls.length =
        (runLoop cfg none kw ct pv tot none rs).pages.length ∧
      (runLoop cfg none kw ct pv tot none rs).pages =
        rs.take (runLoop cfg none kw ct pv tot none rs).pages.length ∧
      (runLoop cfg none kw ct pv tot none rs).pages.length =
        (match firstExhausted cfg rs with
         | some i => i + 1
         | none => rs.length) ∧
      (runLoop cfg none kw ct pv tot none rs).calls.head? =
        (if rs.isEmpty then none else some kw) ∧
      (∀ i ci, (runLoop cfg none kw ct pv tot none rs).calls[i + 1]? = some ci →
        ∃ ri, rs[i]? = some ri ∧ ∀ k,
          alookup ci k =
            alookup (injectTokens cfg.inputToken base (extractTokens cfg ri)) k) := by
  intro rs
  induction rs with
  | nil =>
    intro kw ct pv tot harity hnd hbase herr
    refine ⟨rfl, rfl, rfl, rfl, ?_⟩
    intro i ci hci
    exact Option.noConfusion hci
  | cons r rest ih =>
    intro kw ct pv tot harity hnd hbase herr
    rw [runLoop_cons_simple] at herr ⊢
    by_cases hemp : (extractTokens cfg r).all Option.isNone = true
    · rw [if_pos hemp] at herr ⊢
      refine ⟨rfl, by simp, ?_, rfl, ?_⟩
      · simp [firstExhausted, hemp]
      · intro i ci hci
        exact Option.noConfusion hci
    · rw [if_neg hemp] at herr ⊢
      by_cases hdup : prevBeq pv (extractTokens cfg r) = true
      · rw [if_pos hdup] at herr
        exact Option.noConfusion herr
      · rw [if_neg hdup] at herr ⊢
        have hbase' : ∀ k, k ∉ cfg.inputToken →
            alookup (injectTokens cfg.inputToken kw (extractTokens cfg r)) k =
              alookup base k := fun k hk =>
          (alookup_injectTokens_not_mem cfg.inputToken _ kw k hk).trans (hbase k hk)
        have herr' : (runLoop cfg none
            (injectTokens cfg.inputToken kw (extractTokens cfg r))
            (extractTokens cfg r) (some (extractTokens cfg r))
            (tot + (getListV (searchPath (cfg.resultKeys.headD []) r)).length)
            none rest).err = none := herr
        obtain ⟨ih1, ih2, ih3, ih4, ih5⟩ :=
          ih (injectTokens cfg.inputToken kw (extractTokens cfg r))
            (extractTokens cfg r) (some (extractTokens cfg r))
            (tot + (getListV (searchPath (cfg.resultKeys.headD []) r)).length)
            harity hnd hbase' herr'
        refine ⟨by simp only [consCall, List.length_cons, ih1], ?_, ?_, rfl, ?_⟩
        · simp only [consCall, List.length_cons, List.take_succ_cons]
          exact congrArg (List.cons r) ih2
        · simp only [consCall, List.length_cons]
          have hfe : firstExhausted cfg (r :: rest) =
              (firstExhausted cfg rest).map (· + 1) := by
            simp [firstExhausted, hemp]
          rw [hfe, ih3]
          cases firstExhausted cfg rest <;> simp
        · intro i ci hci
          cases i with
          | zero =>
            simp only [consCall, List.getElem?_cons_succ] at hci
            rw [← List.head?_eq_getElem?] at hci
            have hhead := ih4
            rw [hci] at hhead
            cases hrest : rest.isEmpty with
            | true =>
              rw [hrest] at hhead
              simp at hhead
            | false =>
              rw [hrest] at hhead
              simp at hhead
              refine ⟨r, by simp, ?_⟩
              intro k
              rw [hhead]
              exact alookup_injectTokens_congr cfg.inputToken _ kw base hnd
                (by rw [extractTokens_length, ← harity]) hbase k
          | succ j =>
            simp only [consCall, List.getElem?_cons_succ] at hci
            obtain ⟨ri, hri, hcontent⟩ := ih5 j ci hci
            refine ⟨ri, ?_, hcontent⟩
            rw [List.getElem?_cons_succ]
            exact hri

/-- Claim C3: for every sequence of page responses, a pagination without max
items or starting token issues exactly one call per consumed page in order;
the first call carries the caller kwargs with no token; every later call
carries, over the caller kwargs, exactly the input-token fields extracted
from the immediately preceding response; and pages are consumed exactly up to
the first response whose token slots are all absent or empty (including the
empty string), so no further call is issued after that response. -/
theorem pagination_call_sequence (cfg : PageConfig) (kwargs : Args) (rs : List Val)
    (harity : cfg.inputToken.length = cfg.outputToken.length)
    (hnd : cfg.inputToken.Nodup)
    (hok : (paginate cfg ⟨none, none, none⟩ kwargs rs).err = none) :
    (paginate cfg ⟨none, none, none⟩ kwargs rs).calls.length =
      (paginate cfg ⟨none, none, none⟩ kwargs rs).pages.length ∧
    (paginate cfg ⟨none, none, none⟩ kwargs rs).pages =
      rs.take (paginate cfg ⟨none, none, none⟩ kwargs rs).pages.length ∧
    (paginate cfg ⟨none, none, none⟩ kwargs rs).pages.length =
      (match firstExhausted cfg rs with
       | some i => i + 1
       | none => rs.length) ∧
    (paginate cfg ⟨none, none, none⟩ kwargs rs).calls.head? =
      (if rs.isEmpty then none else some kwargs) ∧
    (∀ i ci, (paginate cfg ⟨none, none, none⟩ kwargs rs).calls[i + 1]? = some ci →
      ∃ ri, rs[i]? = some ri ∧ ∀ k,
        alookup ci k =
          alookup (injectTokens cfg.inputToken kwargs (extractTokens cfg ri)) k) := by
  have hp : paginate cfg ⟨none, none, none⟩ kwargs rs =
      runLoop cfg none kwargs (cfg.inputToken.map fun _ => none) none 0 none rs := by
    unfold paginate
    dsimp only
    rw [injectPageSize_none]
  rw [hp] at hok ⊢
  exact runLoop_sequence cfg kwargs rs kwargs _ none 0 harity hnd
    (fun _ _ => rfl) hok

/-- Witness for claim C3 on the three-page token1/token2 fixture: three calls,
the first with no arguments, and the pages all consumed. -/
theorem pagination_call_sequence_witness :
    (paginate fxCfgNT ⟨none, none, none⟩ [] fxRespsNT).calls.length = 3 ∧
    (paginate fxCfgNT ⟨none, none, none⟩ [] fxRespsNT).calls.head? = some [] ∧
    (paginate fxCfgNT ⟨none, none, none⟩ [] fxRespsNT).pages = fxRespsNT := by
  have h := pagination_call_sequence fxCfgNT [] fxRespsNT (by decide) (by decide)
    (by rfl)
  refine ⟨h.1.trans (h.2.2.1.trans (by rfl)), h.2.2.2.1.trans (by rfl), ?_⟩
  have h2 := h.2.1
  rw [h.2.2.1] at h2
  exact h2.trans (by rfl)

/-- Helper: a pagination run errors out with the repeated-token failure, after
exactly one call for each page up to and including the repeating one, when two
consecutive pages report identical non-empty token lists and the run reaches
them (all earlier pages non-empty, no earlier consecutive repetition, and the
incoming previous-token state does not already match the first page). -/
theorem runLoop_dup (cfg : PageConfig) :
    ∀ (i : Nat) (rs : List Val) (kw : Args) (ct : List (Option Val))
      (pv : Option (List (Option Val))) (tot : Nat) (r1 r2 : Val),
      rs[i]? = some r1 → rs[i + 1]? = some r2 →
      extractTokens cfg r1 = extractTokens cfg r2 →
      (∀ j rj, j ≤ i → rs[j]? = some rj →
        (extractTokens cfg rj).all Option.isNone = false) →
      (∀ j rj rj', j < i → rs[j]? = some rj → rs[j + 1]? = some rj' →
        extractTokens cfg rj ≠ extractTokens cfg rj') →
      (∀ r0, rs[0]? = some r0 → prevBeq pv (extractTokens cfg r0) = false) →
      (runLoop cfg none kw ct pv tot none rs).err = some .sameNextToken ∧
      (runLoop cfg none kw ct pv tot none rs).calls.length = i + 2 := by
  intro i
  induction i with
  | zero =>
    intro rs kw ct pv tot r1 r2 h1 h2 heq hne hdist hpv
    cases rs with
    | nil => exact Option.noConfusion h1
    | cons a rest =>
      have ha : a = r1 := by simpa using h1
      subst ha
      cases rest with
      | nil => exact Option.noConfusion h2
      | cons b rest' =>
        have hb : b = r2 := by simpa using h2
        subst hb
        rw [runLoop_cons_simple]
        rw [if_neg (by rw [hne 0 a (by omega) (by simp)]; simp)]
        rw [if_neg (by rw [hpv a (by simp)]; simp)]
        rw [runLoop_cons_simple]
        have hemp2 : (extractTokens cfg b).all Option.isNone = false := by
          rw [← heq]
          exact hne 0 a (by omega) (by simp)
        rw [if_neg (by rw [hemp2]; simp)]
        rw [if_pos (by
          show prevBeq (some (extractTokens cfg a)) (extractTokens cfg b) = true
          rw [show prevBeq (some (extractTokens cfg a)) (extractTokens cfg b) =
            tokListBeq (extractTokens cfg a) (extractTokens cfg b) from rfl]
          rw [tokListBeq_iff]
          exact heq)]
        exact ⟨rfl, rfl⟩
  | succ i ih =>
    intro rs kw ct pv tot r1 r2 h1 h2 heq hne hdist hpv
    cases rs with
    | nil => exact Option.noConfusion h1
    | cons a rest =>
      rw [runLoop_cons_simple]
      rw [if_neg (by rw [hne 0 a (by omega) (by simp)]; simp)]
      rw [if_neg (by rw [hpv a (by simp)]; simp)]
      have hinner := ih rest
        (injectTokens cfg.inputToken kw (extractTokens cfg a))
        (extractTokens cfg a) (some (extractTokens cfg a))
        (tot + (getListV (searchPath (cfg.resultKeys.headD []) a)).length)
        r1 r2 (by simpa using h1) (by simpa using h2) heq
        (fun j rj hj hrj => hne (j + 1) rj (by omega) (by simpa using hrj))
        (fun j rj rj' hj hrj hrj' =>
          hdist (j + 1) rj rj' (by omega) (by simpa using hrj) (by simpa using hrj'))
        (fun r0 hr0 => by
          have hd := hdist 0 a r0 (by omega) (by simp) (by simpa using hr0)
          show tokListBeq (extractTokens cfg a) (extractTokens cfg r0) = false
          rw [← Bool.not_eq_true, tokListBeq_iff]
          exact hd)
      refine ⟨hinner.1, ?_⟩
      show (kw :: _).length = i + 1 + 2
      rw [List.length_cons, hinner.2]

/-- Claim C5: when two consecutive pages of a pagination report the identical
non-empty next-token list, and the run reaches them (every earlier page has a
non-empty token and no earlier consecutive pair repeats), the pagination
fails with the repeated-token pagination error after exactly one call per
page up to the repeating one: it never issues another call on a repeated
token. -/
theorem pagination_repeated_token_error (cfg : PageConfig) (kwargs : Args)
    (rs : List Val) (i : Nat) (r1 r2 : Val)
    (h1 : rs[i]? = some r1) (h2 : rs[i + 1]? = some r2)
    (heq : extractTokens cfg r1 = extractTokens cfg r2)
    (hne : ∀ j rj, j ≤ i → rs[j]? = some rj →
      (extractTokens cfg rj).all Option.isNone = false)
    (hdist : ∀ j rj rj', j < i → rs[j]? = some rj → rs[j + 1]? = some rj' →
      extractTokens cfg rj ≠ extractTokens cfg rj') :
    (paginate cfg ⟨none, none, none⟩ kwargs rs).err = some .sameNextToken ∧
    (paginate cfg ⟨none, none, none⟩ kwargs rs).calls.length = i + 2 := by
  have hp : paginate cfg ⟨none, none, none⟩ kwargs rs =
      runLoop cfg none kwargs (cfg.inputToken.map fun _ => none) none 0 none rs := by
    unfold paginate
    dsimp only
    rw [injectPageSize_none]
  rw [hp]
  exact runLoop_dup cfg i rs kwargs _ none 0 r1 r2 h1 h2 heq hne hdist
    (fun r0 _ => rfl)

/-- Witness for claim C5 on the token1/token2/token2 fixture: the error is
raised while processing the third page, after exactly three calls. -/
theorem pagination_repeated_token_error_witness :
    (paginate fxCfgNT ⟨none, none, none⟩ [] fxRespsDup).err =
      some .sameNextToken ∧
    (paginate fxCfgNT ⟨none, none, none⟩ [] fxRespsDup).calls.length = 3 := by
  have h := pagination_repeated_token_error fxCfgNT [] fxRespsDup 1
    (.vDict [("NextToken", .vStr "token2")])
    (.vDict [("NextToken", .vStr "token2")])
    (by rfl) (by rfl) (by rfl)
    (by
      intro j rj hj hrj
      interval_cases j
      · have : rj = Val.vDict [("NextToken", .vStr "token1")] := by
          simpa [fxRespsDup] using hrj.symm
        rw [this]
        decide
      · have : rj = Val.vDict [("NextToken", .vStr "token2")] := by
          simpa [fxRespsDup] using hrj.symm
        rw [this]
        decide)
    (by
      intro j rj rj' hj hrj hrj'
      interval_cases j
      have ha : rj = Val.vDict [("NextToken", .vStr "token1")] := by
        simpa [fxRespsDup] using hrj.symm
      have hb : rj' = Val.vDict [("NextToken", .vStr "token2")] := by
        simpa [fxRespsDup] using hrj'.symm
      rw [ha, hb]
      decide)
  exact h

/-- Claim C7 (amended): a supplied starting token whose triple-underscore
segment count is the input-token arity plus one (so its trailing segment is
the in-page offset slot) and whose trailing segment is not an integer makes
the pagination fail with the bad-starting-token pagination error before any
call is issued or page aggregated. -/
theorem bad_starting_token_rejected (cfg : PageConfig) (ps : PaginationSettings)
    (kwargs : Args) (rs : List Val) (s : String)
    (hs : ps.startingToken = some s)
    (hlen : (splitTok s).length = cfg.inputToken.length + 1)
    (hint : parseIntStr ((splitTok s).getLastD "") = none) :
    paginate cfg ps kwargs rs = ⟨[], [], none, some (.badStartingToken s)⟩ := by
  have hp : parseStartingToken cfg.inputToken.length s =
      .error (.badStartingToken s) := by
    unfold parseStartingToken
    dsimp only
    rw [if_pos hlen, hint]
  unfold paginate
  rw [hs]
  dsimp only
  rw [hp]

/-- Counterexample to claim C7 as stated: the starting token m2 has a
non-integer trailing segment, yet with one declared input token it decodes as
a plain token value (there is no offset slot), no pagination error is raised,
and the first call carries the token. -/
theorem bad_starting_token_counterexample :
    (paginate fxCfgM ⟨none, some "m2", none⟩ []
      [.vDict [("Users", .vList [.vStr "User1"])]]).err = none ∧
    parseIntStr ((splitTok "m2").getLastD "") = none ∧
    (paginate fxCfgM ⟨none, some "m2", none⟩ []
      [.vDict [("Users", .vList [.vStr "User1"])]]).calls =
      [[("Marker", .vStr "m2")]] :=
  ⟨by rfl, by rfl, by rfl⟩

/-- Witness for claim C7 (amended) at the bad token of the unit test. -/
theorem bad_starting_token_rejected_witness :
    paginate fxCfgM ⟨none, some "bad___notanint", none⟩ []
      [.vDict [("Users", .vList [.vStr "User1"])]] =
      ⟨[], [], none, some (.badStartingToken "bad___notanint")⟩ :=
  bad_starting_token_rejected fxCfgM ⟨none, some "bad___notanint", none⟩ []
    [.vDict [("Users", .vList [.vStr "User1"])]] "bad___notanint"
    rfl (by rfl) (by rfl)

theorem alookup_injectPageSize_ne (lk : Option String) (psz : Option Val)
    (kw : Args) (k : String) (h : lk ≠ some k) :
    alookup (injectPageSize lk psz kw) k = alookup kw k := by
  cases lk with
  | none => rfl
  | some l =>
    cases psz with
    | none => rfl
    | some v =>
      exact alookup_aset_ne kw l v k (fun hh => h (by rw [hh]))

/-- Helper: every call a pagination loop issues agrees with the base kwargs
on every key that is neither an input-token name nor the limit key. -/
theorem runLoop_calls_frame (cfg : PageConfig) (base : Args) :
    ∀ (rs : List Val) (mi : Option Nat) (kw : Args) (ct : List (Option Val))
      (pv : Option (List (Option Val))) (tot : Nat) (fo : Option Nat),
      (∀ k, k ∉ cfg.inputToken → ¬cfg.limitKey = some k →
        alookup kw k = alookup base k) →
      ∀ call ∈ (runLoop cfg mi kw ct pv tot fo rs).calls, ∀ k,
        k ∉ cfg.inputToken → ¬cfg.limitKey = some k →
        alookup call k = alookup base k := by
  intro rs
  induction rs with
  | nil =>
    intro mi kw ct pv tot fo hkw call hcall
    exact absurd hcall (List.not_mem_nil _)
  | cons r rest ih =>
    intro mi kw ct pv tot fo hkw call hcall k hk hlk
    simp only [runLoop] at hcall
    split at hcall
    · simp at hcall
      rw [hcall]
      exact hkw k hk hlk
    · split at hcall
      · simp at hcall
        rw [hcall]
        exact hkw k hk hlk
      · split at hcall
        · simp at hcall
          rw [hcall]
          exact hkw k hk hlk
        · split at hcall
          · simp at hcall
            rw [hcall]
            exact hkw k hk hlk
          · simp only [consCall, List.mem_cons] at hcall
            cases hcall with
            | inl hcalleq =>
              rw [hcalleq]
              exact hkw k hk hlk
            | inr hmem =>
              refine ih mi _ _ _ _ none ?_ call hmem k hk hlk
              intro k' hk' hlk'
              rw [alookup_injectTokens_not_mem cfg.inputToken _ kw k' hk']
              exact hkw k' hk' hlk'

/-- Claim C10 (amended): every page invocation passes the caller-supplied
non-token arguments unchanged (only the input-token fields and, when
configured, the limit-key field differ from the caller kwargs), and the
starting-parameter injection returns the caller's argument dict unmodified
when no page size is configured and no starting token was supplied. -/
theorem paginate_kwargs_frame (cfg : PageConfig) (ps : PaginationSettings)
    (kwargs : Args) (rs : List Val) :
    (∀ call ∈ (paginate cfg ps kwargs rs).calls, ∀ k,
       k ∉ cfg.inputToken → ¬cfg.limitKey = some k →
       alookup call k = alookup kwargs k) ∧
    (ps.startingToken = none → ps.pageSize = none →
       injectStartingParams cfg ps kwargs = .ok kwargs) := by
  constructor
  · intro call hcall k hk hlk
    unfold paginate at hcall
    cases hst : ps.startingToken with
    | none =>
      rw [hst] at hcall
      dsimp only at hcall
      refine runLoop_calls_frame cfg kwargs rs ps.maxItems _ _ none 0 none
        ?_ call hcall k hk hlk
      intro k' _ hlk'
      exact alookup_injectPageSize_ne cfg.limitKey ps.pageSize kwargs k' hlk'
    | some s =>
      rw [hst] at hcall
      dsimp only at hcall
      cases hparse : parseStartingToken cfg.inputToken.length s with
      | error e =>
        rw [hparse] at hcall
        exact absurd hcall (List.not_mem_nil call)
      | ok vo =>
        obtain ⟨vals, off⟩ := vo
        rw [hparse] at hcall
        dsimp only at hcall
        refine runLoop_calls_frame cfg kwargs rs ps.maxItems _ _ none 0 (some off)
          ?_ call hcall k hk hlk
        intro k' hk' hlk'
        rw [alookup_injectPageSize_ne cfg.limitKey ps.pageSize _ k' hlk']
        exact alookup_injectTokens_not_mem cfg.inputToken _ kwargs k' hk'
  · intro h1 h2
    unfold injectStartingParams
    rw [h1, h2, injectPageSize_none]

/-- Counterexample to claim C10 as stated: with a starting token configured
and no page size, injecting the starting parameters does modify the caller's
argument dict (the decoded token value is added under the input-token
field). -/
theorem inject_starting_params_counterexample :
    injectStartingParams fxCfgM ⟨none, some "m1", none⟩
      [("arg1", .vStr "foo")] ≠ .ok [("arg1", .vStr "foo")] := by
  intro h
  have h2 : ([("arg1", Val.vStr "foo"), ("Marker", Val.vStr "m1")] : Args) =
      [("arg1", Val.vStr "foo")] := Except.ok.inj ((by rfl :
        (Except.ok [("arg1", Val.vStr "foo"), ("Marker", Val.vStr "m1")] :
          Except PagError Args) =
        injectStartingParams fxCfgM ⟨none, some "m1", none⟩
          [("arg1", .vStr "foo")]).trans h)
  exact absurd h2 (by decide)

/-- Witness for claim C10 (amended): on a three-page run the second call still
carries arg1 unchanged, and the starting-parameter injection with neither page
size nor starting token returns the kwargs untouched. -/
theorem paginate_kwargs_frame_witness :
    alookup ((paginate fxCfgM ⟨none, none, none⟩ [("arg1", .vStr "foo")]
        fxRespsTrunc).calls.getD 1 []) "arg1" =
      alookup [("arg1", Val.vStr "foo")] "arg1" ∧
    injectStartingParams fxCfgM ⟨none, none, none⟩ [("arg1", .vStr "foo")] =
      .ok [("arg1", .vStr "foo")] := by
  have h := paginate_kwargs_frame fxCfgM ⟨none, none, none⟩
    [("arg1", .vStr "foo")] fxRespsTrunc
  exact ⟨h.1 _ (by decide) "arg1" (by decide) (by decide), h.2 rfl rfl⟩

/-! ### Token encoding lemmas -/

theorem charDigit_digitChar (d : Nat) (h : d < 10) : charDigit (digitChar d) = d := by
  interval_cases d <;> decide

theorem digitChar_isDigit (d : Nat) (h : d < 10) : (digitChar d).isDigit = true := by
  interval_cases d <;> decide

theorem natWireGo_spec : ∀ (fuel n : Nat), n < fuel →
    natWireGo fuel n ≠ [] ∧ (natWireGo fuel n).all Char.isDigit = true ∧
    Nat.ofDigits 10 ((natWireGo fuel n).reverse.map charDigit) = n := by
  intro fuel
  induction fuel with
  | zero => intro n hn; omega
  | succ fuel ih =>
    intro n hn
    by_cases h10 : n < 10
    · refine ⟨by simp [natWireGo, h10], ?_, ?_⟩
      · simp [natWireGo, h10, digitChar_isDigit n h10]
      · simp [natWireGo, h10, Nat.ofDigits, charDigit_digitChar n h10]
    · have hdiv : n / 10 < fuel := by
        have h1 : n / 10 < n := Nat.div_lt_self (by omega) (by omega)
        omega
      obtain ⟨ihne, ihall, ihval⟩ := ih (n / 10) hdiv
      have hstep : natWireGo (fuel + 1) n =
          natWireGo fuel (n / 10) ++ [digitChar (n % 10)] := by
        simp [natWireGo, h10]
      refine ⟨by simp [hstep], ?_, ?_⟩
      · rw [hstep, List.all_append, ihall]
        simp [digitChar_isDigit (n % 10) (Nat.mod_lt n (by omega))]
      · rw [hstep, List.reverse_append]
        simp only [List.reverse_cons, List.reverse_nil, List.nil_append,
          List.singleton_append, List.map_cons, Nat.ofDigits_cons,
          charDigit_digitChar (n % 10) (Nat.mod_lt n (by omega)), ihval]
        omega

theorem parseNatChars_natWire (n : Nat) : parseNatChars (natWire n) = some n := by
  obtain ⟨hne, hall, hval⟩ := natWireGo_spec (n + 1) n (by omega)
  unfold parseNatChars natWire
  rw [if_pos ⟨hne, hall⟩]
  rw [hval]

theorem natWire_all_digit (n : Nat) : (natWire n).all Char.isDigit = true :=
  (natWireGo_spec (n + 1) n (by omega)).2.1

theorem natWire_no_und (n : Nat) : '_' ∉ natWire n := by
  intro hmem
  have hd := List.all_eq_true.mp (natWire_all_digit n) _ hmem
  exact absurd hd (by decide)

theorem parseIntStr_natWireStr (n : Nat) :
    parseIntStr (natWireStr n) = some (n : Int) := by
  unfold parseIntStr
  split
  next rest heq =>
    exfalso
    have hdata : (natWireStr n).data = natWire n := rfl
    rw [hdata] at heq
    have hmem : ('-' : Char) ∈ natWire n := by
      rw [heq]
      exact List.mem_cons_self _ _
    have hd := List.all_eq_true.mp (natWire_all_digit n) _ hmem
    exact absurd hd (by decide)
  next cs hno =>
    have hdata : (natWireStr n).data = natWire n := rfl
    rw [hdata, parseNatChars_natWire]
    rfl

theorem splitTokAux_cons_ne (c : Char) (hc : c ≠ '_') (cs : List Char)
    (acc : List Char) (hlen : 2 ≤ cs.length) :
    splitTokAux (c :: cs) acc = splitTokAux cs (c :: acc) := by
  cases cs with
  | nil => simp at hlen
  | cons c2 cs' =>
    cases cs' with
    | nil => simp at hlen
    | cons c3 rest =>
      show splitTokAux (c :: c2 :: c3 :: rest) acc = _
      simp only [splitTokAux]
      rw [if_neg (fun hh => hc hh.1)]

theorem splitTokAux_no_und : ∀ (cs : List Char) (acc : List Char), '_' ∉ cs →
    splitTokAux cs acc = [String.mk (acc.reverse ++ cs)] := by
  intro cs
  induction cs with
  | nil => intro acc _; simp [splitTokAux]
  | cons c cs' ih =>
    intro acc hmem
    have hc : c ≠ '_' := fun hh => hmem (by rw [hh]; exact List.mem_cons_self _ _)
    have hmem' : '_' ∉ cs' := fun hh => hmem (List.mem_cons_of_mem c hh)
    cases cs' with
    | nil => simp [splitTokAux]
    | cons c2 cs'' =>
      cases cs'' with
      | nil => simp [splitTokAux]
      | cons c3 rest =>
        rw [splitTokAux_cons_ne c hc _ acc (by simp)]
        rw [ih (c :: acc) hmem']
        simp

theorem splitTokAux_sep : ∀ (cs1 : List Char), '_' ∉ cs1 →
    ∀ (acc cs2 : List Char), '_' ∉ cs2 →
    splitTokAux (cs1 ++ '_' :: '_' :: '_' :: cs2) acc =
      [String.mk (acc.reverse ++ cs1), String.mk cs2] := by
  intro cs1
  induction cs1 with
  | nil =>
    intro _ acc cs2 h2
    show splitTokAux ('_' :: '_' :: '_' :: cs2) acc = _
    simp only [splitTokAux, if_pos (And.intro rfl (And.intro rfl rfl))]
    rw [splitTokAux_no_und cs2 [] h2]
    simp
  | cons c cs1' ih =>
    intro h1 acc cs2 h2
    have hc : c ≠ '_' := fun hh => h1 (by rw [hh]; exact List.mem_cons_self _ _)
    have h1' : '_' ∉ cs1' := fun hh => h1 (List.mem_cons_of_mem c hh)
    rw [List.cons_append, splitTokAux_cons_ne c hc _ acc (by simp; omega)]
    rw [ih h1' (c :: acc) cs2 h2]
    simp

theorem splitTok_sep (m t : String) (hm : '_' ∉ m.data) (ht : '_' ∉ t.data) :
    splitTok (m ++ "___" ++ t) = [m, t] := by
  unfold splitTok
  have h3 : ("___" : String).data = ['_', '_', '_'] := rfl
  have hdata : (m ++ "___" ++ t).data = m.data ++ '_' :: '_' :: '_' :: t.data := by
    rw [String.data_append, String.data_append, h3]
    simp
  rw [hdata, splitTokAux_sep m.data hm [] t.data ht]
  simp

theorem intercalate_two (a b : String) :
    String.intercalate "___" [a, b] = a ++ "___" ++ b := by
  simp [String.intercalate, String.intercalate.go]

/-! ### Max-items truncation and resume -/

theorem fx_extract (l : List Val) (m : String) (hm : m ≠ "") :
    extractTokens fxCfgM (.vDict [("Users", .vList l), ("Marker", .vStr m)]) =
      [some (.vStr m)] := by
  simp [extractTokens, fxCfgM, searchAlts, searchPath, alookup, tokenEmpty, hm]

theorem fx_extract_nomarker (l : List Val) :
    extractTokens fxCfgM (.vDict [("Users", .vList l)]) = [none] := by
  simp [extractTokens, fxCfgM, searchAlts, searchPath, alookup, tokenEmpty]

theorem fx_search (l : List Val) (m : String) :
    searchPath ["Users"] (.vDict [("Users", .vList l), ("Marker", .vStr m)]) =
      some (.vList l) := by
  simp [searchPath, alookup]

theorem fx_search_nomarker (l : List Val) :
    searchPath ["Users"] (.vDict [("Users", .vList l)]) = some (.vList l) := by
  simp [searchPath, alookup]

theorem fxstep_go (mi : Option Nat) (kw : Args) (ct : List (Option Val))
    (pv : Option (List (Option Val))) (tot : Nat) (l : List Val) (m : String)
    (rest : List Val) (hm : m ≠ "")
    (hnotr : ∀ mm, mi = some mm → tot + l.length ≤ mm)
    (hnb : mi ≠ some (tot + l.length))
    (hdup : prevBeq pv [some (.vStr m)] = false) :
    runLoop fxCfgM mi kw ct pv tot none
        (.vDict [("Users", .vList l), ("Marker", .vStr m)] :: rest) =
      consCall kw (.vDict [("Users", .vList l), ("Marker", .vStr m)])
        (runLoop fxCfgM mi (aset kw "Marker" (.vStr m)) [some (.vStr m)]
          (some [some (.vStr m)]) (tot + l.length) none rest) := by
  rw [runLoop_cons_eq]
  dsimp only
  rw [show fxCfgM.resultKeys.headD [] = ["Users"] from rfl]
  rw [fx_search]
  rw [if_neg ?hc1]
  case hc1 =>
    cases mi with
    | none => simp
    | some mm =>
      have := hnotr mm rfl
      simp only [getListV]
      simp
      omega
  rw [fx_extract l m hm]
  rw [if_neg (by simp)]
  rw [if_neg ?hc2]
  case hc2 =>
    simp only [getListV]
    intro hh
    exact hnb (by simpa using hh)
  rw [if_neg (by rw [hdup]; simp)]
  simp only [getListV]
  rfl

theorem fxstep_trunc (M : Nat) (kw : Args) (ct : List (Option Val))
    (pv : Option (List (Option Val))) (tot : Nat) (l : List Val) (m : String)
    (rest : List Val) (htr : M < tot + l.length) :
    runLoop fxCfgM (some M) kw ct pv tot none
        (.vDict [("Users", .vList l), ("Marker", .vStr m)] :: rest) =
      ⟨[kw], [.vDict [("Users", .vList (l.take (M - tot))), ("Marker", .vStr m)]],
       some (encodeToken ct (some (M - tot))), none⟩ := by
  rw [runLoop_cons_eq]
  dsimp only
  rw [show fxCfgM.resultKeys.headD [] = ["Users"] from rfl]
  rw [fx_search]
  rw [if_pos ?hc1]
  case hc1 =>
    simp only [getListV]
    simp
    omega
  simp only [getListV, Option.getD]
  simp [setPath, aset, alookup]

theorem fxstep_stop (kw : Args) (ct : List (Option Val))
    (pv : Option (List (Option Val))) (tot : Nat) (l : List Val)
    (rest : List Val) :
    runLoop fxCfgM none kw ct pv tot none (.vDict [("Users", .vList l)] :: rest) =
      ⟨[kw], [.vDict [("Users", .vList l)]], none, none⟩ := by
  rw [runLoop_cons_eq]
  dsimp only
  rw [show fxCfgM.resultKeys.headD [] = ["Users"] from rfl]
  rw [fx_search_nomarker]
  rw [if_neg (by simp)]
  rw [fx_extract_nomarker l]
  rw [if_pos (by simp)]

theorem fxstep_first (kw : Args) (ct : List (Option Val))
    (pv : Option (List (Option Val))) (k : Nat) (l : List Val) (m : String)
    (rest : List Val) (hm : m ≠ "")
    (hdup : prevBeq pv [some (.vStr m)] = false) :
    runLoop fxCfgM none kw ct pv 0 (some k)
        (.vDict [("Users", .vList l), ("Marker", .vStr m)] :: rest) =
      consCall kw (.vDict [("Users", .vList (l.drop k)), ("Marker", .vStr m)])
        (runLoop fxCfgM none (aset kw "Marker" (.vStr m)) [some (.vStr m)]
          (some [some (.vStr m)]) (l.drop k).length none rest) := by
  rw [runLoop_cons_eq]
  dsimp only
  have hfirst : handleFirstRequest fxCfgM k
      (.vDict [("Users", .vList l), ("Marker", .vStr m)]) =
      .vDict [("Users", .vList (l.drop k)), ("Marker", .vStr m)] := by
    simp [handleFirstRequest, fxCfgM, fx_search, getListV, setPath, aset, alookup]
  rw [hfirst]
  rw [show fxCfgM.resultKeys.headD [] = ["Users"] from rfl]
  rw [fx_search]
  rw [if_neg (by simp)]
  rw [fx_extract _ m hm]
  rw [if_neg (by simp)]
  rw [if_neg (by simp)]
  rw [if_neg (by rw [hdup]; simp)]
  simp only [getListV]
  rw [Nat.zero_add]
  rfl

theorem fx_build_two (calls : List Args) (lA lB : List Val) (mA mB : String)
    (t : String) :
    buildFullResult fxCfgM
      ⟨calls, [.vDict [("Users", .vList lA), ("Marker", .vStr mA)],
               .vDict [("Users", .vList lB), ("Marker", .vStr mB)]],
       some t, none⟩ =
      .vDict [("Users", .vList (lA ++ lB)), ("NextToken", .vStr t)] := by
  simp [buildFullResult, aggregatePieces, searchPath, alookup, getListItems,
    setPath, aset, deepMergeVal, deepMergeEntries, fxCfgM]

theorem fx_build_resume (calls : List Args) (lA lB : List Val) (mA : String) :
    buildFullResult fxCfgM
      ⟨calls, [.vDict [("Users", .vList lA), ("Marker", .vStr mA)],
               .vDict [("Users", .vList lB)]],
       none, none⟩ =
      .vDict [("Users", .vList (lA ++ lB))] := by
  simp [buildFullResult, aggregatePieces, searchPath, alookup, getListItems,
    setPath, aset, deepMergeVal, deepMergeEntries, fxCfgM]

theorem parseStartingToken_sep (m1 : String) (k : Nat) (hm1n : m1 ≠ "None")
    (hm1u : '_' ∉ m1.data) :
    parseStartingToken 1 (m1 ++ "___" ++ natWireStr k) =
      .ok ([some m1], k) := by
  simp only [parseStartingToken]
  rw [splitTok_sep m1 (natWireStr k) hm1u (natWire_no_und k)]
  rw [if_pos (show ([m1, natWireStr k] : List String).length = 1 + 1 from rfl)]
  rw [show ([m1, natWireStr k].getLastD "") = natWireStr k from rfl]
  rw [parseIntStr_natWireStr k]
  simp [decodeTokenPart, hm1n]

theorem paginate_resume_eq (l2 l3 : List Val) (m1 m2 : String) (k : Nat)
    (hm2 : m2 ≠ "") (hm1n : m1 ≠ "None") (hm1u : '_' ∉ m1.data) :
    paginate fxCfgM ⟨none, some (m1 ++ "___" ++ natWireStr k), none⟩ []
        [.vDict [("Users", .vList l2), ("Marker", .vStr m2)],
         .vDict [("Users", .vList l3)]] =
      ⟨[[("Marker", .vStr m1)], [("Marker", .vStr m2)]],
       [.vDict [("Users", .vList (l2.drop k)), ("Marker", .vStr m2)],
        .vDict [("Users", .vList l3)]], none, none⟩ := by
  have hpag : paginate fxCfgM ⟨none, some (m1 ++ "___" ++ natWireStr k), none⟩ []
      [.vDict [("Users", .vList l2), ("Marker", .vStr m2)],
       .vDict [("Users", .vList l3)]] =
      runLoop fxCfgM none [("Marker", .vStr m1)] [some (.vStr m1)] none 0 (some k)
        [.vDict [("Users", .vList l2), ("Marker", .vStr m2)],
         .vDict [("Users", .vList l3)]] := by
    unfold paginate
    dsimp only
    rw [show fxCfgM.inputToken.length = 1 from rfl]
    rw [parseStartingToken_sep m1 k hm1n hm1u]
    rfl
  rw [hpag]
  rw [fxstep_first [("Marker", .vStr m1)] [some (.vStr m1)] none k l2 m2 _ hm2 rfl]
  rw [fxstep_stop (aset [("Marker", .vStr m1)] "Marker" (.vStr m2))
    [some (.vStr m2)] (some [some (.vStr m2)]) (l2.drop k).length l3 []]
  rfl

/-- Claim C4: over pages of users with markers, a max-items budget reached
mid-page truncates the final page's result list to the remaining budget and
aggregates a NextToken equal to the input-token value joined with a literal
triple underscore to the numeric in-page offset (two calls, no third); and
resuming a fresh pagination with such a token as the starting token replays
the call with the encoded marker, skips the encoded number of items of the
first page, and yields exactly the remaining items with no further token. -/
theorem max_items_truncation_and_resume (l1 l2 l3 : List Val) (m1 m2 : String)
    (M k : Nat) (hm1 : m1 ≠ "") (hm2 : m2 ≠ "") (hm1n : m1 ≠ "None")
    (hm1u : '_' ∉ m1.data) (hlt1 : l1.length < M)
    (hlt2 : M < l1.length + l2.length) :
    (buildFullResult fxCfgM (paginate fxCfgM ⟨some M, none, none⟩ []
        [.vDict [("Users", .vList l1), ("Marker", .vStr m1)],
         .vDict [("Users", .vList l2), ("Marker", .vStr m2)],
         .vDict [("Users", .vList l3)]]) =
      .vDict [("Users", .vList (l1 ++ l2.take (M - l1.length))),
              ("NextToken", .vStr (m1 ++ "___" ++ natWireStr (M - l1.length)))] ∧
     (paginate fxCfgM ⟨some M, none, none⟩ []
        [.vDict [("Users", .vList l1), ("Marker", .vStr m1)],
         .vDict [("Users", .vList l2), ("Marker", .vStr m2)],
         .vDict [("Users", .vList l3)]]).calls.length = 2) ∧
    (buildFullResult fxCfgM (paginate fxCfgM
        ⟨none, some (m1 ++ "___" ++ natWireStr k), none⟩ []
        [.vDict [("Users", .vList l2), ("Marker", .vStr m2)],
         .vDict [("Users", .vList l3)]]) =
      .vDict [("Users", .vList (l2.drop k ++ l3))] ∧
     (paginate fxCfgM ⟨none, some (m1 ++ "___" ++ natWireStr k), none⟩ []
        [.vDict [("Users", .vList l2), ("Marker", .vStr m2)],
         .vDict [("Users", .vList l3)]]).calls =
       [[("Marker", .vStr m1)], [("Marker", .vStr m2)]] ∧
     (paginate fxCfgM ⟨none, some (m1 ++ "___" ++ natWireStr k), none⟩ []
        [.vDict [("Users", .vList l2), ("Marker", .vStr m2)],
         .vDict [("Users", .vList l3)]]).err = none) := by
  have henc : encodeToken [some (Val.vStr m1)] (some (M - l1.length)) =
      m1 ++ "___" ++ natWireStr (M - l1.length) := by
    rw [← intercalate_two]
    rfl
  have hpag1 : paginate fxCfgM ⟨some M, none, none⟩ []
      [.vDict [("Users", .vList l1), ("Marker", .vStr m1)],
       .vDict [("Users", .vList l2), ("Marker", .vStr m2)],
       .vDict [("Users", .vList l3)]] =
      runLoop fxCfgM (some M) [] [none] none 0 none
        [.vDict [("Users", .vList l1), ("Marker", .vStr m1)],
         .vDict [("Users", .vList l2), ("Marker", .vStr m2)],
         .vDict [("Users", .vList l3)]] := rfl
  have hrun1 : runLoop fxCfgM (some M) [] [none] none 0 none
      [.vDict [("Users", .vList l1), ("Marker", .vStr m1)],
       .vDict [("Users", .vList l2), ("Marker", .vStr m2)],
       .vDict [("Users", .vList l3)]] =
      ⟨[[], [("Marker", .vStr m1)]],
       [.vDict [("Users", .vList l1), ("Marker", .vStr m1)],
        .vDict [("Users", .vList (l2.take (M - l1.length))), ("Marker", .vStr m2)]],
       some (m1 ++ "___" ++ natWireStr (M - l1.length)), none⟩ := by
    rw [fxstep_go (some M) [] [none] none 0 l1 m1 _ hm1
      (fun mm hmm => by injection hmm with hh; omega)
      (fun hh => by injection hh with hh2; omega) rfl]
    rw [Nat.zero_add]
    rw [fxstep_trunc M _ _ _ l1.length l2 m2 _ (by omega)]
    rw [henc]
    rfl
  refine ⟨⟨?_, ?_⟩, ?_, ?_, ?_⟩
  · rw [hpag1, hrun1, fx_build_two]
  · rw [hpag1, hrun1]
    rfl
  · rw [paginate_resume_eq l2 l3 m1 m2 k hm2 hm1n hm1u, fx_build_resume]
  · rw [paginate_resume_eq l2 l3 m1 m2 k hm2 hm1n hm1u]
  · rw [paginate_resume_eq l2 l3 m1 m2 k hm2 hm1n hm1u]

/-- Witness for C4 at the unit-test data: seven users over pages of three,
three and one with markers m1 and m2, a max-items budget of four, and a resume
from the emitted token m1 three-underscores one. -/
theorem max_items_truncation_and_resume_witness :
    ("m1" : String) ≠ "" ∧ ("m2" : String) ≠ "" ∧ ("m1" : String) ≠ "None" ∧
    '_' ∉ ("m1" : String).data ∧
    [Val.vStr "U1", Val.vStr "U2", Val.vStr "U3"].length < 4 ∧
    (4 : Nat) < [Val.vStr "U1", Val.vStr "U2", Val.vStr "U3"].length +
      [Val.vStr "U4", Val.vStr "U5", Val.vStr "U6"].length ∧
    (buildFullResult fxCfgM (paginate fxCfgM ⟨some 4, none, none⟩ []
        [.vDict [("Users", .vList [Val.vStr "U1", Val.vStr "U2", Val.vStr "U3"]),
                 ("Marker", .vStr "m1")],
         .vDict [("Users", .vList [Val.vStr "U4", Val.vStr "U5", Val.vStr "U6"]),
                 ("Marker", .vStr "m2")],
         .vDict [("Users", .vList [Val.vStr "U7"])]]) =
      .vDict [("Users", .vList [Val.vStr "U1", Val.vStr "U2", Val.vStr "U3",
                                Val.vStr "U4"]),
              ("NextToken", .vStr "m1___1")]) ∧
    (buildFullResult fxCfgM (paginate fxCfgM ⟨none, some "m1___1", none⟩ []
        [.vDict [("Users", .vList [Val.vStr "U4", Val.vStr "U5", Val.vStr "U6"]),
                 ("Marker", .vStr "m2")],
         .vDict [("Users", .vList [Val.vStr "U7"])]]) =
      .vDict [("Users", .vList [Val.vStr "U5", Val.vStr "U6", Val.vStr "U7"])]) ∧
    (paginate fxCfgM ⟨none, some "m1___1", none⟩ []
        [.vDict [("Users", .vList [Val.vStr "U4", Val.vStr "U5", Val.vStr "U6"]),
                 ("Marker", .vStr "m2")],
         .vDict [("Users", .vList [Val.vStr "U7"])]]).calls =
      [[("Marker", .vStr "m1")], [("Marker", .vStr "m2")]] := by
  have h := max_items_truncation_and_resume
    [Val.vStr "U1", Val.vStr "U2", Val.vStr "U3"]
    [Val.vStr "U4", Val.vStr "U5", Val.vStr "U6"]
    [Val.vStr "U7"] "m1" "m2" 4 1
    (by decide) (by decide) (by decide) (by decide) (by decide) (by decide)
  refine ⟨by decide, by decide, by decide, by decide, by decide, by decide,
    ?_, ?_, ?_⟩
  · exact h.1.1
  · exact h.2.1
  · exact h.2.2.1

/-! ### Protocol round trips -/

theorem mapM_roundtrip {α β : Type} (g : α → β) (f : β → Option α) :
    ∀ xs : List α, (∀ x ∈ xs, f (g x) = some x) → (xs.map g).mapM f = some xs := by
  intro xs
  induction xs with
  | nil => intro _; rfl
  | cons x xs ih =>
    intro h
    rw [List.map_cons, List.mapM_cons, h x (List.mem_cons_self _ _),
      ih (fun y hy => h y (List.mem_cons_of_mem _ hy))]
    rfl

theorem parseIntStr_intWireStr (i : Int) : parseIntStr (intWireStr i) = some i := by
  by_cases hneg : i < 0
  · have hs : intWireStr i = "-" ++ natWireStr i.natAbs := by
      unfold intWireStr; rw [if_pos hneg]
    have hdata : ("-" ++ natWireStr i.natAbs).data = '-' :: natWire i.natAbs := by
      rw [String.data_append]; rfl
    rw [hs]
    unfold parseIntStr
    split
    next rest heq =>
      rw [hdata] at heq
      injection heq with h1 h2
      rw [← h2, parseNatChars_natWire]
      show some (-(i.natAbs : Int)) = some i
      congr 1
      omega
    next cs hno =>
      exact absurd hdata (hno (natWire i.natAbs))
  · have hs : intWireStr i = natWireStr i.natAbs := by
      unfold intWireStr; rw [if_neg hneg]
    rw [hs, parseIntStr_natWireStr]
    congr 1
    omega

theorem parseBoolStr_boolWire (b : Bool) : parseBoolStr (boolWire b) = some b := by
  cases b <;> rfl

theorem jsonParseStruct_nil_doc : ∀ ms : PMembers, jsonParseStruct ms [] = some []
  | .nil => rfl
  | .cons _ _ rest => jsonParseStruct_nil_doc rest

theorem jsonParseStruct_skip : ∀ (ms : PMembers) (n : String) (j : JVal)
    (doc : List (String × JVal)), PMembers.hasName n ms = false →
    jsonParseStruct ms ((n, j) :: doc) = jsonParseStruct ms doc
  | .nil, _, _, _, _ => rfl
  | .cons m s rest, n, j, doc, h => by
    have hne : ¬(n = m) ∧ PMembers.hasName n rest = false := by
      simpa [PMembers.hasName] using h
    simp only [jsonParseStruct]
    rw [show alookup ((n, j) :: doc) m = if n = m then some j else alookup doc m
      from rfl, if_neg hne.1]
    simp only [jsonParseStruct_skip rest n j doc hne.2]

theorem alookup_jsonSerStruct_none : ∀ (ms : PMembers) (es : List (String × Val))
    (n : String), PMembers.hasName n ms = false →
    alookup (jsonSerStruct ms es) n = none
  | .nil, _, _, _ => rfl
  | .cons m s rest, es, n, h => by
    have hne : ¬(n = m) ∧ PMembers.hasName n rest = false := by
      simpa [PMembers.hasName] using h
    cases es with
    | nil => rfl
    | cons kx es' =>
      obtain ⟨k, x⟩ := kx
      simp only [jsonSerStruct]
      by_cases hk : k = m
      · rw [if_pos hk]
        simp only [alookup]
        rw [if_neg (fun hh => hne.1 hh.symm)]
        exact alookup_jsonSerStruct_none rest es' n hne.2
      · rw [if_neg hk]
        exact alookup_jsonSerStruct_none rest ((k, x) :: es') n hne.2

mutual

theorem jsonParse_jsonSer : ∀ (s : PShape) (v : Val), PShape.wf s = true →
    conforms s v = true → jsonParse s (jsonSer s v) = some v
  | .pString, v, _, hc => by
    cases v
    case vStr s0 => rfl
    all_goals exact Bool.noConfusion hc
  | .pInteger, v, _, hc => by
    cases v
    case vInt n => rfl
    all_goals exact Bool.noConfusion hc
  | .pBoolean, v, _, hc => by
    cases v
    case vBool b => rfl
    all_goals exact Bool.noConfusion hc
  | .pList s, v, hwf, hc => by
    cases v
    case vList xs =>
      have hc' : xs.all (conforms s) = true := hc
      simp only [jsonSer, jsonParse]
      rw [mapM_roundtrip (jsonSer s) (jsonParse s) xs (fun x hx =>
        jsonParse_jsonSer s x hwf (List.all_eq_true.mp hc' x hx))]
      rfl
    all_goals exact Bool.noConfusion hc
  | .pMap s, v, hwf, hc => by
    cases v
    case vDict kvs =>
      have hc' : kvs.all (fun kv => conforms s kv.2) = true := hc
      simp only [jsonSer, jsonParse]
      rw [mapM_roundtrip (fun kv => (kv.1, jsonSer s kv.2))
        (fun kj => (jsonParse s kj.2).map ((kj.1, ·))) kvs (fun kv hkv => by
          dsimp only
          rw [jsonParse_jsonSer s kv.2 hwf (List.all_eq_true.mp hc' kv hkv)]
          rfl)]
      rfl
    all_goals exact Bool.noConfusion hc
  | .pStruct ms, v, hwf, hc => by
    cases v
    case vDict es =>
      simp only [jsonSer, jsonParse]
      rw [jsonParseStruct_jsonSerStruct ms es hwf hc]
      rfl
    all_goals exact Bool.noConfusion hc

theorem jsonParseStruct_jsonSerStruct : ∀ (ms : PMembers) (es : List (String × Val)),
    PMembers.wf ms = true → structConforms ms es = true →
    jsonParseStruct ms (jsonSerStruct ms es) = some es
  | .nil, es, _, hc => by
    cases es with
    | nil => rfl
    | cons e es' => exact Bool.noConfusion hc
  | .cons n s rest, es, hwf, hc => by
    have hw : PMembers.hasName n rest = false ∧ PShape.wf s = true ∧
        PMembers.wf rest = true := by
      simpa [PMembers.wf, and_assoc] using hwf
    cases es with
    | nil =>
      simp only [jsonSerStruct]
      exact jsonParseStruct_nil_doc (.cons n s rest)
    | cons kx es' =>
      obtain ⟨k, x⟩ := kx
      by_cases hk : k = n
      · subst hk
        have hcc : conforms s x = true ∧ structConforms rest es' = true := by
          simpa [structConforms] using hc
        simp only [jsonSerStruct]
        rw [if_true]
        simp only [jsonParseStruct]
        rw [show alookup ((k, jsonSer s x) :: jsonSerStruct rest es') k =
          some (jsonSer s x) from by simp [alookup]]
        dsimp only
        rw [jsonParse_jsonSer s x hw.2.1 hcc.1]
        simp only [jsonParseStruct_skip rest k (jsonSer s x)
          (jsonSerStruct rest es') hw.1]
        rw [jsonParseStruct_jsonSerStruct rest es' hw.2.2 hcc.2]
      · have hcr : structConforms rest ((k, x) :: es') = true := by
          have h2 := hc
          simp only [structConforms] at h2
          rwa [if_neg hk] at h2
        simp only [jsonSerStruct]
        rw [if_neg hk]
        simp only [jsonParseStruct]
        rw [alookup_jsonSerStruct_none rest ((k, x) :: es') n hw.1]
        dsimp only
        exact jsonParseStruct_jsonSerStruct rest ((k, x) :: es') hw.2.2 hcr

end

theorem xmlParseStruct_nil_doc : ∀ ms : PMembers, xmlParseStruct ms [] = some []
  | .nil => rfl
  | .cons _ _ rest => xmlParseStruct_nil_doc rest

theorem xmlParseStruct_skip : ∀ (ms : PMembers) (n : String) (cs : List XNode)
    (doc : List XNode), PMembers.hasName n ms = false →
    xmlParseStruct ms (.elem n cs :: doc) = xmlParseStruct ms doc
  | .nil, _, _, _, _ => rfl
  | .cons m s rest, n, cs, doc, h => by
    have hne : ¬(n = m) ∧ PMembers.hasName n rest = false := by
      simpa [PMembers.hasName] using h
    simp only [xmlParseStruct]
    rw [show findElem (.elem n cs :: doc) m =
      (if n = m then some cs else findElem doc m) from rfl, if_neg hne.1]
    simp only [xmlParseStruct_skip rest n cs doc hne.2]

theorem findElem_xmlSerStruct_none : ∀ (ms : PMembers) (es : List (String × Val))
    (n : String), PMembers.hasName n ms = false →
    findElem (xmlSerStruct ms es) n = none
  | .nil, _, _, _ => rfl
  | .cons m s rest, es, n, h => by
    have hne : ¬(n = m) ∧ PMembers.hasName n rest = false := by
      simpa [PMembers.hasName] using h
    cases es with
    | nil => rfl
    | cons kx es' =>
      obtain ⟨k, x⟩ := kx
      simp only [xmlSerStruct]
      by_cases hk : k = m
      · rw [if_pos hk]
        simp only [findElem]
        rw [if_neg (fun hh => hne.1 hh.symm)]
        exact findElem_xmlSerStruct_none rest es' n hne.2
      · rw [if_neg hk]
        exact findElem_xmlSerStruct_none rest ((k, x) :: es') n hne.2

theorem elemsWithTag_map_elem {α : Type} (t : String) (f : α → List XNode) :
    ∀ xs : List α, elemsWithTag (xs.map (fun x => .elem t (f x))) t = xs.map f := by
  intro xs
  induction xs with
  | nil => rfl
  | cons x xs ih =>
    simp only [List.map_cons, elemsWithTag]
    rw [if_true, ih]

mutual

theorem xmlParse_xmlSer : ∀ (s : PShape) (v : Val), PShape.wf s = true →
    conforms s v = true → xmlParse s (xmlSer s v) = some v
  | .pString, v, _, hc => by
    cases v
    case vStr s0 => rfl
    all_goals exact Bool.noConfusion hc
  | .pInteger, v, _, hc => by
    cases v
    case vInt n =>
      simp [xmlSer, xmlParse, textContent, parseIntStr_intWireStr]
    all_goals exact Bool.noConfusion hc
  | .pBoolean, v, _, hc => by
    cases v
    case vBool b =>
      simp [xmlSer, xmlParse, textContent, parseBoolStr_boolWire]
    all_goals exact Bool.noConfusion hc
  | .pList s, v, hwf, hc => by
    cases v
    case vList xs =>
      have hc' : xs.all (conforms s) = true := hc
      simp only [xmlSer, xmlParse]
      rw [elemsWithTag_map_elem "member" (xmlSer s) xs]
      rw [mapM_roundtrip (xmlSer s) (xmlParse s) xs (fun x hx =>
        xmlParse_xmlSer s x hwf (List.all_eq_true.mp hc' x hx))]
      rfl
    all_goals exact Bool.noConfusion hc
  | .pMap s, v, hwf, hc => by
    cases v
    case vDict kvs =>
      have hc' : kvs.all (fun kv => conforms s kv.2) = true := hc
      simp only [xmlSer, xmlParse]
      rw [elemsWithTag_map_elem "entry"
        (fun kv => [.elem "key" [.text kv.1], .elem "value" (xmlSer s kv.2)]) kvs]
      rw [mapM_roundtrip
        (fun kv => [XNode.elem "key" [XNode.text kv.1],
          XNode.elem "value" (xmlSer s kv.2)])
        (fun cs =>
          match findElem cs "key", findElem cs "value" with
          | some kns, some vns =>
            match textContent kns, xmlParse s vns with
            | some k, some v => some (k, v)
            | _, _ => none
          | _, _ => none) kvs (fun kv hkv => by
          have hx := xmlParse_xmlSer s kv.2 hwf (List.all_eq_true.mp hc' kv hkv)
          simp [findElem, textContent, hx])]
      rfl
    all_goals exact Bool.noConfusion hc
  | .pStruct ms, v, hwf, hc => by
    cases v
    case vDict es =>
      simp only [xmlSer, xmlParse]
      rw [xmlParseStruct_xmlSerStruct ms es hwf hc]
      rfl
    all_goals exact Bool.noConfusion hc

theorem xmlParseStruct_xmlSerStruct : ∀ (ms : PMembers) (es : List (String × Val)),
    PMembers.wf ms = true → structConforms ms es = true →
    xmlParseStruct ms (xmlSerStruct ms es) = some es
  | .nil, es, _, hc => by
    cases es with
    | nil => rfl
    | cons e es' => exact Bool.noConfusion hc
  | .cons n s rest, es, hwf, hc => by
    have hw : PMembers.hasName n rest = false ∧ PShape.wf s = true ∧
        PMembers.wf rest = true := by
      simpa [PMembers.wf, and_assoc] using hwf
    cases es with
    | nil =>
      simp only [xmlSerStruct]
      exact xmlParseStruct_nil_doc (.cons n s rest)
    | cons kx es' =>
      obtain ⟨k, x⟩ := kx
      by_cases hk : k = n
      · subst hk
        have hcc : conforms s x = true ∧ structConforms rest es' = true := by
          simpa [structConforms] using hc
        simp only [xmlSerStruct]
        rw [if_true]
        simp only [xmlParseStruct]
        rw [show findElem (XNode.elem k (xmlSer s x) :: xmlSerStruct rest es') k =
          some (xmlSer s x) from by simp [findElem]]
        dsimp only
        rw [xmlParse_xmlSer s x hw.2.1 hcc.1]
        simp only [xmlParseStruct_skip rest k (xmlSer s x)
          (xmlSerStruct rest es') hw.1]
        rw [xmlParseStruct_xmlSerStruct rest es' hw.2.2 hcc.2]
      · have hcr : structConforms rest ((k, x) :: es') = true := by
          have h2 := hc
          simp only [structConforms] at h2
          rwa [if_neg hk] at h2
        simp only [xmlSerStruct]
        rw [if_neg hk]
        simp only [xmlParseStruct]
        rw [findElem_xmlSerStruct_none rest ((k, x) :: es') n hw.1]
        dsimp only
        exact xmlParseStruct_xmlSerStruct rest ((k, x) :: es') hw.2.2 hcr

end

/-- Counterexample to claim C1 as stated: for the form-RPC and legacy-query
protocols the request serializer emits a form-encoded key/value body while the
protocol's response parser consumes an XML document, so parsing the serialized
request body back never recovers the parameters -- it is a malformed response
for every parameter tree, including a conforming one. -/
theorem protocol_round_trip_counterexample :
    PShape.wf fxShapeRT = true ∧ conforms fxShapeRT fxParamsRT = true ∧
    parseBody .ec2 fxShapeRT
      (serializeBody .ec2 "OperationName" "2014-01-01" fxShapeRT fxParamsRT) ≠
      some fxParamsRT ∧
    parseBody .query fxShapeRT
      (serializeBody .query "OperationName" "2014-01-01" fxShapeRT fxParamsRT) =
      none := by
  refine ⟨by decide, by decide, ?_, rfl⟩
  intro h
  exact Option.noConfusion h

/-- Claim C1 (amended): for every well-formed shape and conforming parameter
tree, the JSON-RPC, REST-JSON and REST-XML serializers round-trip through the
matching parser; the query/form-RPC parsers round-trip the XML response
encoding of the same tree; but parsing a form-encoded query/form-RPC request
body back through those parsers yields nothing, for every input. -/
theorem protocol_round_trip (s : PShape) (v : Val) (opName apiVersion : String)
    (hwf : PShape.wf s = true) (hc : conforms s v = true) :
    parseBody .json s (serializeBody .json opName apiVersion s v) = some v ∧
    parseBody .restJson s (serializeBody .restJson opName apiVersion s v) = some v ∧
    parseBody .restXml s (serializeBody .restXml opName apiVersion s v) = some v ∧
    parseBody .query s (.xmlDoc (xmlSer s v)) = some v ∧
    parseBody .ec2 s (.xmlDoc (xmlSer s v)) = some v ∧
    parseBody .query s (serializeBody .query opName apiVersion s v) = none ∧
    parseBody .ec2 s (serializeBody .ec2 opName apiVersion s v) = none := by
  refine ⟨?_, ?_, ?_, ?_, ?_, rfl, rfl⟩
  · exact jsonParse_jsonSer s v hwf hc
  · exact jsonParse_jsonSer s v hwf hc
  · exact xmlParse_xmlSer s v hwf hc
  · exact xmlParse_xmlSer s v hwf hc
  · exact xmlParse_xmlSer s v hwf hc

/-- Witness for C1 at a structure of a scalar, an integer list and a boolean
map. -/
theorem protocol_round_trip_witness :
    PShape.wf fxShapeRT = true ∧ conforms fxShapeRT fxParamsRT = true ∧
    (parseBody .json fxShapeRT
        (serializeBody .json "OperationName" "2014-01-01" fxShapeRT fxParamsRT) =
        some fxParamsRT ∧
     parseBody .restJson fxShapeRT
        (serializeBody .restJson "OperationName" "2014-01-01" fxShapeRT fxParamsRT) =
        some fxParamsRT ∧
     parseBody .restXml fxShapeRT
        (serializeBody .restXml "OperationName" "2014-01-01" fxShapeRT fxParamsRT) =
        some fxParamsRT ∧
     parseBody .query fxShapeRT (.xmlDoc (xmlSer fxShapeRT fxParamsRT)) =
        some fxParamsRT ∧
     parseBody .ec2 fxShapeRT (.xmlDoc (xmlSer fxShapeRT fxParamsRT)) =
        some fxParamsRT ∧
     parseBody .query fxShapeRT
        (serializeBody .query "OperationName" "2014-01-01" fxShapeRT fxParamsRT) =
        none ∧
     parseBody .ec2 fxShapeRT
        (serializeBody .ec2 "OperationName" "2014-01-01" fxShapeRT fxParamsRT) =
        none) :=
  ⟨by decide, by decide,
   protocol_round_trip fxShapeRT fxParamsRT "OperationName" "2014-01-01"
     (by decide) (by decide)⟩

/-- Claim C8: under each of the five protocols, after body finalization at the
transport boundary the request descriptor's body is a finalized byte sequence,
never a lazily-encodable wire structure such as an un-encoded mapping of form
pairs. -/
theorem request_body_finalized_bytes (proto : Protocol)
    (opName apiVersion method uri : String) (shape : PShape) (params : Val) :
    ∃ bs, (finalizeRequest (serializeToRequest proto opName apiVersion method uri
      shape params)).body = Body.bytes bs := by
  cases proto
  · exact ⟨_, rfl⟩
  · exact ⟨_, rfl⟩
  · exact ⟨_, rfl⟩
  · exact ⟨_, rfl⟩
  · exact ⟨_, rfl⟩

end YFB
